import Mathlib

/-!
# Block reward engine of go-matrix (`reward/rewardexec`, `reward/blkreward`)

A shallow embedding of `rewardexec.go`: the halving calculator
`calcRewardMountByNumber`, the rate splits `calcValidatorRateMount` /
`calcMinerRateMount`, the foundation allocator, the orchestration entry points
`CalcValidatorRewards`, `CalcMinerRewards`, `CalcNodesRewards`, and the
constructor `New`; and of the constructor `New` of `blkreward.go`.

Conventions of the embedding:

* `*big.Int` values are `Int`; a `*big.Int` that may be `nil` is `Option Int`.
* `uint64` values are `Nat`, with `% 2 ^ 64` written where the Go operation wraps.
* `map[common.Address]*big.Int` is an association list; a map that may be `nil`
  is an `Option`.
* a Go runtime abort (nil dereference, index out of range) is `Except.error`.
* a value of an interface type records whether it carries a dynamic type, so that a
  `nil` pointer stored in an interface differs from the `nil` interface.
* `big.Int` arithmetic is exact and unbounded; the cost of computing `2 ^ n` is not
  part of the embedding.
* logging is dropped: it has no effect on the returned values.
-/

set_option autoImplicit false

namespace GoMatrix

/-! ## Data model -/

/-- The type `common.Address`; only equality of addresses is used. -/
abbrev Address := Nat

/-- The type `common.Hash`. -/
abbrev Hash := Nat

/-- The modulus of `uint64` arithmetic. -/
def uint64Mod : Nat := 2 ^ 64

/-- A reward map `map[common.Address]*big.Int`, as an association list. -/
abbrev RewardMap := List (Address × Int)

/-- Runtime aborts of the Go program that the embedding tracks. -/
inductive Fault where
  | nilDereference
  | indexOutOfRange
  deriving DecidableEq, Repr

/-- One entry of `common.BalanceType`: an account type and a `*big.Int` balance. -/
structure BalanceSlice where
  AccountType : Nat
  Balance : Option Int
  deriving DecidableEq, Repr

/-- The type `common.BalanceType`, a slice of per-sub-account balances. -/
abbrev BalanceType := List BalanceSlice

/-- The interface `util.ChainReader`; the engine only stores it and passes it on. -/
structure ChainReader where
  id : Nat
  deriving DecidableEq, Repr

/-- The resolved broadcast-interval policy `manparams.BCInterval`. The body of
`IsBroadcastNumber` is declared in package `manparams`, so its answer is a field. -/
structure BCInterval where
  IsBroadcastNumber : Nat → Bool

/-- The rate table `RewardMount.RewardRate`: three groups of `uint64` rates. -/
structure RewardRateCfg where
  MinerOutRate : Nat
  ElectedMinerRate : Nat
  FoundationMinerRate : Nat
  LeaderRate : Nat
  ElectedValidatorsRate : Nat
  FoundationValidatorRate : Nat
  OriginElectOfflineRate : Nat
  BackupRewardRate : Nat
  deriving DecidableEq, Repr

/-- The amount table `rewardCfg.RewardMount`: base amounts, halving intervals, rates. -/
structure BlkRewardCfg where
  MinerMount : Nat
  MinerHalf : Nat
  ValidatorMount : Nat
  ValidatorHalf : Nat
  RewardRate : RewardRateCfg
  deriving DecidableEq, Repr

/-- The dynamic values (`interface{}`) that the matrix state store hands back. The value
`blkRewardCfg` is a `*mc.BlkRewardCfg`: a pointer, possibly `nil`, to the switch
`BlkRewardCalc` together with the amount table. -/
inductive StateValue where
  | address (a : Address)
  | addressList (l : List Address)
  | other (payload : Nat)
  | blkRewardCfg (ptr : Option (String × BlkRewardCfg))
  deriving DecidableEq, Repr

/-- The interface `util.StateDB`: the balance accessor used by the engine and the keyed
matrix-state store read through `matrixstate.GetDataByState`. -/
structure StateDB where
  GetBalance : Address → BalanceType
  matrixData : Nat → Option StateValue

/-- The interface `rewardCfg.SetReward`: the three role-distribution strategies, which
are external collaborators of the engine. Each returns a reward map (possibly `nil`). -/
structure SetRewardsExec where
  SetLeaderRewards : Int → Address → Nat → Option RewardMap
  GetSelectedRewards :
    Int → Option StateDB → ChainReader → Nat → Nat → Nat → Option RewardMap
  SetMinerOutRewards :
    Int → Option StateDB → ChainReader → Nat → Hash → List Address → Nat → Option RewardMap

/-- The configuration `cfg.RewardCfg` held by the engine. -/
structure RewardCfg where
  MinersRate : Nat
  ValidatorsRate : Nat
  RewardMount : BlkRewardCfg
  SetReward : SetRewardsExec

/-- The engine `rewardexec.BlockReward`. The pointer `rewardCfg` and the interface `st`
may be `nil`; `bcInterval` is the policy object built by `New`. -/
structure BlockReward where
  chain : ChainReader
  st : Option StateDB
  rewardCfg : Option RewardCfg
  foundationAccount : Address
  innerMinerAccounts : List Address
  bcInterval : BCInterval

/-- Package-level constants and constructors that `rewardexec.go` imports from `util`,
`common`, `mc` and `manparams`. Their declarations belong to those packages, so they
are parameters of the embedding; the full rate unit is a positive constant. -/
structure Env where
  RewardFullRate : Nat
  RewardFullRate_pos : 0 < RewardFullRate
  ManPrice : Int
  MainAccount : Nat
  BlkValidatorRewardAddress : Address
  BlkMinerRewardAddress : Address
  RoleValidator : Nat
  RoleBackupValidator : Nat
  RoleMiner : Nat
  RoleBackupMiner : Nat
  BlkReward : Nat
  TxsReward : Nat
  MSKeyBroadcastInterval : Nat
  MSKeyAccountFoundation : Nat
  MSKeyAccountInnerMiners : Nat
  NewBCIntervalWithInterval : StateValue → Option BCInterval

/-! ## Helpers of the `util` and `matrixstate` packages -/

/-- Modelled from the spec: `util.CalcRateReward` (RateSplitter), whose body belongs to
package `util`. Output: `floor(total * rate / fullRateUnit)`; `Int` division by a
positive divisor is the floor, as is `big.Int.Div`. -/
def CalcRateReward (E : Env) (total : Int) (rate : Nat) : Int :=
  total * (rate : Int) / (E.RewardFullRate : Int)

/-- Adds `amount` to the entry of `account`, inserting the entry when it is absent. -/
def addReward (account : Address) (amount : Int) : RewardMap → RewardMap
  | [] => [(account, amount)]
  | (a, v) :: rest =>
    if a = account then (a, v + amount) :: rest
    else (a, v) :: addReward account amount rest

/-- Modelled from the spec: `util.MergeReward` (RewardMerger), whose body belongs to
package `util`. For each address of the source map the merged value is the sum of the
two values, a missing entry counting as 0; a `nil` source leaves the target unchanged. -/
def MergeReward (dst : RewardMap) (src : Option RewardMap) : RewardMap :=
  match src with
  | none => dst
  | some m => m.foldl (fun acc p => addReward p.1 p.2 acc) dst

/-- Modelled from the spec: `matrixstate.GetDataByState` (ConfigStore), whose body belongs
to package `matrixstate`. A typed lookup by key that fails when the value is
unavailable; `none` stands for a non-nil `error`. -/
def GetDataByState (key : Nat) (st : Option StateDB) : Option StateValue :=
  match st with
  | none => none
  | some s => s.matrixData key

/-- The method `(*big.Int).Uint64`: the low 64 bits of the absolute value. -/
def bigUint64 (x : Int) : Nat :=
  x.natAbs % uint64Mod

/-- The expression `num-1` on a `uint64`, which wraps at 0. -/
def uint64Pred (num : Nat) : Nat :=
  (num + (uint64Mod - 1)) % uint64Mod

/-- The sum of three `uint64` rates as Go computes it. -/
def uint64Add3 (a b c : Nat) : Nat :=
  (a + b + c) % uint64Mod

/-- The sum of two `uint64` rates as Go computes it. -/
def uint64Add2 (a b : Nat) : Nat :=
  (a + b) % uint64Mod

namespace rewardexec

/-! ## `rewardexec.go` -/

/-- The constructor `New` (lines 32-90): the three rate-group checks, the three
chain-state lookups with their type assertions, and the broadcast-interval build.
`Except.error` is the abort on a `nil` `rewardCfg`; `none` is the `nil` engine. -/
def New (E : Env) (chain : ChainReader) (rewardCfg : Option RewardCfg)
    (st : Option StateDB) : Except Fault (Option BlockReward) :=
  match rewardCfg with
  | none => .error .nilDereference
  | some cfg =>
    let r := cfg.RewardMount.RewardRate
    if E.RewardFullRate ≠ uint64Add3 r.MinerOutRate r.ElectedMinerRate r.FoundationMinerRate then
      .ok none
    else if E.RewardFullRate ≠
        uint64Add3 r.LeaderRate r.ElectedValidatorsRate r.FoundationValidatorRate then
      .ok none
    else if E.RewardFullRate ≠ uint64Add2 r.OriginElectOfflineRate r.BackupRewardRate then
      .ok none
    else
      match GetDataByState E.MSKeyBroadcastInterval st with
      | none => .ok none
      | some interval =>
        match GetDataByState E.MSKeyAccountFoundation st with
        | none => .ok none
        | some data =>
          match data with
          | .address foundationAccount =>
            match GetDataByState E.MSKeyAccountInnerMiners st with
            | none => .ok none
            | some innerData =>
              match innerData with
              | .addressList innerMinerAccounts =>
                match E.NewBCIntervalWithInterval interval with
                | none => .ok none
                | some bc =>
                  .ok (some
                    { chain := chain
                      rewardCfg := some cfg
                      st := st
                      foundationAccount := foundationAccount
                      innerMinerAccounts := innerMinerAccounts
                      bcInterval := bc })
              | _ => .ok none
          | _ => .ok none

/-- The method `calcValidatorRateMount` (lines 91-97). -/
def calcValidatorRateMount (E : Env) (br : BlockReward) (blockReward : Int) :
    Except Fault (Int × Int × Int) :=
  match br.rewardCfg with
  | none => .error .nilDereference
  | some cfg =>
    let leaderBlkReward := CalcRateReward E blockReward cfg.RewardMount.RewardRate.LeaderRate
    let electedReward :=
      CalcRateReward E blockReward cfg.RewardMount.RewardRate.ElectedValidatorsRate
    let FoundationsBlkReward :=
      CalcRateReward E blockReward cfg.RewardMount.RewardRate.FoundationValidatorRate
    .ok (leaderBlkReward, electedReward, FoundationsBlkReward)

/-- The method `calcMinerRateMount` (lines 99-105). -/
def calcMinerRateMount (E : Env) (br : BlockReward) (blockReward : Int) :
    Except Fault (Int × Int × Int) :=
  match br.rewardCfg with
  | none => .error .nilDereference
  | some cfg =>
    let minerOutReward := CalcRateReward E blockReward cfg.RewardMount.RewardRate.MinerOutRate
    let electedReward := CalcRateReward E blockReward cfg.RewardMount.RewardRate.ElectedMinerRate
    let FoundationsBlkReward :=
      CalcRateReward E blockReward cfg.RewardMount.RewardRate.FoundationMinerRate
    .ok (minerOutReward, electedReward, FoundationsBlkReward)

/-- The method `canCalcFoundationRewards` (lines 176-187). -/
def canCalcFoundationRewards (br : BlockReward) (blockReward : Int) (num : Nat) : Bool :=
  if br.bcInterval.IsBroadcastNumber num then false
  else if blockReward ≤ 0 then false
  else true

/-- The method `calcFoundationRewards` (lines 188-197); `none` is the `nil` map. -/
def calcFoundationRewards (br : BlockReward) (blockReward : Int) (num : Nat) :
    Option RewardMap :=
  if canCalcFoundationRewards br blockReward num = false then none
  else
    let accountRewards : RewardMap := [(br.foundationAccount, blockReward)]
    some accountRewards

/-- The method `calcRewardMountByNumber` (lines 230-273), the halving calculator;
`none` is the `nil` result on an empty balance list. -/
def calcRewardMountByNumber (E : Env) (br : BlockReward) (blockReward : Int)
    (num halfNum : Nat) (address : Address) : Except Fault (Option Int) :=
  if blockReward < 0 then .ok (some 0)
  else
    match br.st with
    | none => .ok (some 0)
    | some st =>
      let balance := st.GetBalance address
      if balance.length = 0 then .ok none
      else
        match balance.get? E.MainAccount with
        | none => .error .indexOutOfRange
        | some slice =>
          match slice.Balance with
          | none => .error .nilDereference
          | some bal =>
            if bal < 0 then .ok (some 0)
            else
              let n := if 0 ≠ halfNum then num / halfNum else 0
              let reward := if 0 = n then blockReward else blockReward / (2 : Int) ^ n
              if bal < reward then .ok (some 0)
              else .ok (some reward)

/-- The method `getValidatorRewards` (lines 130-141). -/
def getValidatorRewards (E : Env) (br : BlockReward) (blockReward : Int) (Leader : Address)
    (num : Nat) : Except Fault RewardMap :=
  match br.rewardCfg with
  | none => .error .nilDereference
  | some cfg =>
    match calcValidatorRateMount E br blockReward with
    | .error f => .error f
    | .ok (leaderBlkMount, electedMount, FoundationsMount) =>
      let rewards : RewardMap := []
      let leaderReward := cfg.SetReward.SetLeaderRewards leaderBlkMount Leader num
      let electReward := cfg.SetReward.GetSelectedRewards electedMount br.st br.chain
        (E.RoleValidator ||| E.RoleBackupValidator) num
        cfg.RewardMount.RewardRate.BackupRewardRate
      let foundationReward := calcFoundationRewards br FoundationsMount num
      let rewards := MergeReward rewards leaderReward
      let rewards := MergeReward rewards electReward
      let rewards := MergeReward rewards foundationReward
      .ok rewards

/-- The method `getMinerRewards` (lines 143-154). -/
def getMinerRewards (E : Env) (br : BlockReward) (blockReward : Int) (num : Nat)
    (rewardType : Nat) (parentHash : Hash) : Except Fault RewardMap :=
  match br.rewardCfg with
  | none => .error .nilDereference
  | some cfg =>
    match calcMinerRateMount E br blockReward with
    | .error f => .error f
    | .ok (minerOutAmount, electedMount, FoundationsMount) =>
      let rewards : RewardMap := []
      let minerOutReward := cfg.SetReward.SetMinerOutRewards minerOutAmount br.st br.chain
        num parentHash br.innerMinerAccounts rewardType
      let electReward := cfg.SetReward.GetSelectedRewards electedMount br.st br.chain
        (E.RoleMiner ||| E.RoleBackupMiner) num
        cfg.RewardMount.RewardRate.BackupRewardRate
      let foundationReward := calcFoundationRewards br FoundationsMount num
      let rewards := MergeReward rewards minerOutReward
      let rewards := MergeReward rewards electReward
      let rewards := MergeReward rewards foundationReward
      .ok rewards

/-- The method `CalcValidatorRewards` (lines 107-128); `none` is the `nil` map. The
configuration is dereferenced on entry (line 109), before the `nil == br.rewardCfg` test
of line 117, and `Uint64` is called on the halving result, which aborts when it is `nil`. -/
def CalcValidatorRewards (E : Env) (br : BlockReward) (Leader : Address) (num : Nat) :
    Except Fault (Option RewardMap) :=
  match br.rewardCfg with
  | none => .error .nilDereference
  | some cfg =>
    let RewardMan := (cfg.RewardMount.ValidatorMount : Int) * E.ManPrice
    let halfNum := cfg.RewardMount.ValidatorHalf
    match calcRewardMountByNumber E br RewardMan (uint64Pred num) halfNum
        E.BlkValidatorRewardAddress with
    | .error f => .error f
    | .ok none => .error .nilDereference
    | .ok (some blockReward) =>
      if bigUint64 blockReward = 0 then .ok none
      else if br.bcInterval.IsBroadcastNumber num then .ok none
      else
        match getValidatorRewards E br blockReward Leader num with
        | .error f => .error f
        | .ok rewards => .ok (some rewards)

/-- The method `CalcMinerRewards` (lines 156-175); `none` is the `nil` map. The shape is
that of `CalcValidatorRewards`: dereference on entry (line 158), `Uint64` gate, the
configuration test, the broadcast test. -/
def CalcMinerRewards (E : Env) (br : BlockReward) (num : Nat) (parentHash : Hash) :
    Except Fault (Option RewardMap) :=
  match br.rewardCfg with
  | none => .error .nilDereference
  | some cfg =>
    let RewardMan := (cfg.RewardMount.MinerMount : Int) * E.ManPrice
    let halfNum := cfg.RewardMount.MinerHalf
    match calcRewardMountByNumber E br RewardMan (uint64Pred num) halfNum
        E.BlkMinerRewardAddress with
    | .error f => .error f
    | .ok none => .error .nilDereference
    | .ok (some blockReward) =>
      if bigUint64 blockReward = 0 then .ok none
      else if br.bcInterval.IsBroadcastNumber num then .ok none
      else
        match getMinerRewards E br blockReward num E.BlkReward parentHash with
        | .error f => .error f
        | .ok rewards => .ok (some rewards)

/-- The method `CalcNodesRewards` (lines 199-228); `none` is the `nil` map. -/
def CalcNodesRewards (E : Env) (br : BlockReward) (blockReward : Int) (Leader : Address)
    (num : Nat) (parentHash : Hash) : Except Fault (Option RewardMap) :=
  match br.rewardCfg with
  | none => .ok none
  | some cfg =>
    if br.bcInterval.IsBroadcastNumber num then .ok none
    else
      let rewards : RewardMap := []
      let minersBlkReward := CalcRateReward E blockReward cfg.MinersRate
      match getMinerRewards E br minersBlkReward num E.TxsReward parentHash with
      | .error f => .error f
      | .ok minerRewards =>
        if blockReward ≤ 0 then .ok none
        else
          let validatorsBlkReward := CalcRateReward E blockReward cfg.ValidatorsRate
          match getValidatorRewards E br validatorsBlkReward Leader num with
          | .error f => .error f
          | .ok validatorReward =>
            let rewards := MergeReward rewards (some validatorReward)
            let rewards := MergeReward rewards (some minerRewards)
            .ok rewards

end rewardexec

/-- A value of the interface type `reward.Reward`. Go compares an interface value equal to
`nil` only when it carries no dynamic type; a `*rewardexec.BlockReward` stored in the
interface keeps its type, also when the pointer itself is `nil`. -/
inductive Reward where
  | nilInterface
  | blockReward (ptr : Option BlockReward)

/-- The comparison `r == nil` on a value of the interface type `reward.Reward`. -/
def Reward.isNil : Reward → Bool
  | .nilInterface => true
  | .blockReward _ => false

/-- Constants and constructors that `blkreward.go` imports from `mc`, `util` and `cfg`:
the state key of the block-reward configuration, the switch value `util.Stop`, and the
constructor `cfg.New` applied to the configuration with a `nil` strategy. -/
structure BlkEnv where
  MSKeyBlkRewardCfg : Nat
  Stop : String
  cfgNew : String → BlkRewardCfg → Option RewardCfg

namespace blkreward

/-! ## `blkreward.go` -/

/-- The constructor `blkreward.New` (lines 21-39). The plain `return nil` statements yield
the nil interface; the last line converts the `*BlockReward` returned by
`rewardexec.New` to the interface type `reward.Reward`. -/
def New (E : Env) (B : BlkEnv) (chain : ChainReader) (st : Option StateDB) :
    Except Fault Reward :=
  match GetDataByState B.MSKeyBlkRewardCfg st with
  | none => .ok .nilInterface
  | some Rewardcfg =>
    match Rewardcfg with
    | .blkRewardCfg RC =>
      match RC with
      | none => .error .nilDereference
      | some (BlkRewardCalc, mount) =>
        if BlkRewardCalc = B.Stop then .ok .nilInterface
        else
          let rewardCfg := B.cfgNew BlkRewardCalc mount
          match rewardexec.New E chain rewardCfg st with
          | .error f => .error f
          | .ok ptr => .ok (.blockReward ptr)
    | _ => .ok .nilInterface

end blkreward

/-! ## Specification-side formulas -/

/-- The halving formula in the words of the specification: `base` when `halfNum = 0` or
`num < halfNum`, and `floor(base / 2^floor(num/halfNum))` otherwise. -/
def halvingReward (base : Int) (num halfNum : Nat) : Int :=
  if halfNum = 0 ∨ num < halfNum then base
  else ⌊(base : ℚ) / (2 : ℚ) ^ (num / halfNum)⌋

/-- The halved amount `floor(base / 2^n)` with `n = 0` if `halfNum = 0`, else
`num / halfNum`, in the words of the specification. -/
def halvedAmount (base : Int) (num halfNum : Nat) : Int :=
  ⌊(base : ℚ) / (2 : ℚ) ^ (if halfNum = 0 then 0 else num / halfNum)⌋

/-- The rate split in the words of the specification: `floor(total * rate / fullRateUnit)`. -/
def rateSplit (E : Env) (total : Int) (rate : Nat) : Int :=
  ⌊((total * (rate : Int) : Int) : ℚ) / ((E.RewardFullRate : Nat) : ℚ)⌋

/-- The amount that `calcRewardMountByNumber` computes before the balance comparison
(lines 255-264). -/
def halvedInt (blockReward : Int) (num halfNum : Nat) : Int :=
  if 0 = (if 0 ≠ halfNum then num / halfNum else 0) then blockReward
  else blockReward / (2 : Int) ^ (if 0 ≠ halfNum then num / halfNum else 0)

/-! ## Concrete instances used by the worked examples -/

/-- A broadcast policy in which every multiple of `interval` is a broadcast height. -/
def demoInterval (interval : Nat) : BCInterval :=
  { IsBroadcastNumber := fun n => n % interval == 0 }

/-- An environment with a full rate unit of 100 and a price unit of `10 ^ 18`. -/
def demoEnv : Env :=
  { RewardFullRate := 100
    RewardFullRate_pos := by decide
    ManPrice := 10 ^ 18
    MainAccount := 0
    BlkValidatorRewardAddress := 1001
    BlkMinerRewardAddress := 1002
    RoleValidator := 4
    RoleBackupValidator := 8
    RoleMiner := 1
    RoleBackupMiner := 2
    BlkReward := 0
    TxsReward := 1
    MSKeyBroadcastInterval := 1
    MSKeyAccountFoundation := 2
    MSKeyAccountInnerMiners := 3
    NewBCIntervalWithInterval := fun v =>
      match v with
      | .other p => some (demoInterval p)
      | _ => none }

/-- A state whose treasury accounts all hold `bal` on the main account, with a broadcast
interval of 100, foundation account 7 and inner miners 8 and 9. -/
def demoState (bal : Int) : StateDB :=
  { GetBalance := fun _ => [{ AccountType := 0, Balance := some bal }]
    matrixData := fun k =>
      if k = 1 then some (.other 100)
      else if k = 2 then some (.address 7)
      else if k = 3 then some (.addressList [8, 9])
      else none }

/-- Probe strategies: each one credits its whole input amount to a single address. -/
def demoSetReward : SetRewardsExec :=
  { SetLeaderRewards := fun amount leader _ => some [(leader, amount)]
    GetSelectedRewards := fun amount _ _ roles _ _ => some [(500 + roles, amount)]
    SetMinerOutRewards := fun amount _ _ _ _ _ _ => some [(600, amount)] }

/-- A rate table with the groups 40/50/10, 40/50/10 and 50/50 of 100. -/
def demoRates : RewardRateCfg :=
  { MinerOutRate := 40
    ElectedMinerRate := 50
    FoundationMinerRate := 10
    LeaderRate := 40
    ElectedValidatorsRate := 50
    FoundationValidatorRate := 10
    OriginElectOfflineRate := 50
    BackupRewardRate := 50 }

/-- A configuration over `demoRates` with the given base amounts and halving intervals. -/
def demoCfg (mount half : Nat) : RewardCfg :=
  { MinersRate := 30
    ValidatorsRate := 70
    RewardMount :=
      { MinerMount := mount
        MinerHalf := half
        ValidatorMount := mount
        ValidatorHalf := half
        RewardRate := demoRates }
    SetReward := demoSetReward }

/-- A rate table whose miner group is `2 ^ 64 - 1`, 1 and 100: the exact sum is
`2 ^ 64 + 100`, which `uint64` addition wraps to 100. The other groups are those of
`demoRates`. -/
def wrappedRates : RewardRateCfg :=
  { MinerOutRate := 18446744073709551615
    ElectedMinerRate := 1
    FoundationMinerRate := 100
    LeaderRate := 40
    ElectedValidatorsRate := 50
    FoundationValidatorRate := 10
    OriginElectOfflineRate := 50
    BackupRewardRate := 50 }

/-- A rate table whose validator group 40/50/20 sums to 110 instead of 100. -/
def badRates : RewardRateCfg :=
  { MinerOutRate := 40
    ElectedMinerRate := 50
    FoundationMinerRate := 10
    LeaderRate := 40
    ElectedValidatorsRate := 50
    FoundationValidatorRate := 20
    OriginElectOfflineRate := 50
    BackupRewardRate := 50 }

/-- A configuration with base amount 1, halving interval 50 and the given rate table. -/
def cfgWithRates (rates : RewardRateCfg) : RewardCfg :=
  { MinersRate := 30
    ValidatorsRate := 70
    RewardMount :=
      { MinerMount := 1
        MinerHalf := 50
        ValidatorMount := 1
        ValidatorHalf := 50
        RewardRate := rates }
    SetReward := demoSetReward }

/-- An engine over `demoState bal` and `demoCfg mount half`, as `New` builds it. -/
def demoEngine (bal : Int) (mount half : Nat) : BlockReward :=
  { chain := { id := 0 }
    st := some (demoState bal)
    rewardCfg := some (demoCfg mount half)
    foundationAccount := 7
    innerMinerAccounts := [8, 9]
    bcInterval := demoInterval 100 }

/-- An engine without a reward configuration (`rewardCfg == nil`). -/
def noCfgEngine : BlockReward :=
  { chain := { id := 0 }
    st := some (demoState 1000)
    rewardCfg := none
    foundationAccount := 7
    innerMinerAccounts := [8, 9]
    bcInterval := demoInterval 100 }

/-- A state whose `GetBalance` returns the empty list for every address. -/
def emptyBalanceState : StateDB :=
  { GetBalance := fun _ => []
    matrixData := (demoState 0).matrixData }

/-- An engine over `emptyBalanceState` with the configuration `demoCfg 1 50`. -/
def emptyBalanceEngine : BlockReward :=
  { chain := { id := 0 }
    st := some emptyBalanceState
    rewardCfg := some (demoCfg 1 50)
    foundationAccount := 7
    innerMinerAccounts := [8, 9]
    bcInterval := demoInterval 100 }

/-- A configuration over `demoRates` whose fee rates add up to more than the full rate
unit: MinersRate 60 and ValidatorsRate 70 of 100. -/
def excessFeeCfg : RewardCfg :=
  { MinersRate := 60
    ValidatorsRate := 70
    RewardMount :=
      { MinerMount := 1
        MinerHalf := 50
        ValidatorMount := 1
        ValidatorHalf := 50
        RewardRate := demoRates }
    SetReward := demoSetReward }

/-- The constants of `blkreward.go`: key 4, the switch value "0", and a `cfg.New` that
wraps the amount table with the probe strategies. -/
def demoBlkEnv : BlkEnv :=
  { MSKeyBlkRewardCfg := 4
    Stop := "0"
    cfgNew := fun _ mount =>
      some { MinersRate := 0, ValidatorsRate := 0, RewardMount := mount,
             SetReward := demoSetReward } }

/-- The state `demoState 0` extended with a block-reward configuration under key 4: the
switch is "1" (not stopped) and the rate table is the given one. -/
def blkRewardState (rates : RewardRateCfg) : StateDB :=
  { GetBalance := (demoState 0).GetBalance
    matrixData := fun k =>
      if k = 4 then
        some (.blkRewardCfg (some ("1",
          { MinerMount := 1, MinerHalf := 50, ValidatorMount := 1, ValidatorHalf := 50,
            RewardRate := rates })))
      else (demoState 0).matrixData k }

/-! ## Reading a reward map -/

/-- The value stored under `account` in a reward map, a missing entry counting as 0. -/
def rewardAt (account : Address) : RewardMap → Int
  | [] => 0
  | (a, v) :: rest => if a = account then v else rewardAt account rest

/-- The sum of all entries of an association list that carry the key `account`. -/
def totalAt (account : Address) : RewardMap → Int
  | [] => 0
  | (a, v) :: rest => (if a = account then v else 0) + totalAt account rest

/-- The keys of a reward map. -/
def rewardKeys (m : RewardMap) : List Address :=
  m.map Prod.fst

/-! ## Auxiliary lemmas -/

open rewardexec

/-- The floor of `base / 2 ^ k` over the rationals is the integer quotient. -/
theorem floor_div_two_pow (base : Int) (k : Nat) :
    ⌊(base : ℚ) / (2 : ℚ) ^ k⌋ = base / (2 : Int) ^ k := by
  have h := Rat.floor_intCast_div_natCast base (2 ^ k)
  simpa using h

/-- The amount computed by the code is the halved amount of the specification. -/
theorem halvedInt_eq_halvedAmount (base : Int) (num halfNum : Nat) :
    halvedInt base num halfNum = halvedAmount base num halfNum := by
  unfold halvedInt halvedAmount
  rw [floor_div_two_pow]
  by_cases h : halfNum = 0
  · simp [h]
  · have h0 : (0 : Nat) ≠ halfNum := fun e => h e.symm
    simp only [h0, h, ne_eq, not_false_eq_true, if_true, if_false]
    by_cases hn : 0 = num / halfNum
    · simp [← hn]
    · simp [hn]

/-- The two wordings of the halving formula agree. -/
theorem halvedAmount_eq_halvingReward (base : Int) (num halfNum : Nat) :
    halvedAmount base num halfNum = halvingReward base num halfNum := by
  unfold halvedAmount halvingReward
  by_cases h : halfNum = 0
  · simp [h]
  · by_cases hlt : num < halfNum
    · simp [h, hlt, Nat.div_eq_of_lt hlt]
    · simp [h, hlt]

/-- The halved amount of a non-negative base is non-negative. -/
theorem halvedInt_nonneg (base : Int) (num halfNum : Nat) (hbase : 0 ≤ base) :
    0 ≤ halvedInt base num halfNum := by
  unfold halvedInt
  generalize (if 0 ≠ halfNum then num / halfNum else 0) = n
  split
  · exact hbase
  · exact Int.ediv_nonneg hbase (by positivity)

/-- The halved amount of a non-negative base is at most the base. -/
theorem halvedInt_le (base : Int) (num halfNum : Nat) (hbase : 0 ≤ base) :
    halvedInt base num halfNum ≤ base := by
  unfold halvedInt
  generalize (if 0 ≠ halfNum then num / halfNum else 0) = n
  split
  · exact le_refl base
  · exact Int.ediv_le_self _ hbase

/-- What `calcRewardMountByNumber` returns on a non-negative base when the state is
present and the main-account balance of the address is readable. -/
theorem calcRewardMountByNumber_readable (E : Env) (br : BlockReward) (st : StateDB)
    (base : Int) (num halfNum : Nat) (addr : Address) (ty : Nat) (b : Int)
    (hbase : 0 ≤ base) (hst : br.st = some st)
    (hbal : (st.GetBalance addr).get? E.MainAccount = some ⟨ty, some b⟩) :
    calcRewardMountByNumber E br base num halfNum addr =
      .ok (some (if b < 0 then 0
        else if b < halvedInt base num halfNum then 0 else halvedInt base num halfNum)) := by
  have hlen : (st.GetBalance addr).length ≠ 0 := by
    intro h0
    have hnil : st.GetBalance addr = [] := List.length_eq_zero.mp h0
    rw [hnil] at hbal
    simp at hbal
  have hnb : ¬ base < 0 := not_lt.mpr hbase
  unfold calcRewardMountByNumber
  simp only [hnb, if_false, hst, hlen, hbal]
  unfold halvedInt
  generalize (if 0 ≠ halfNum then num / halfNum else 0) = n
  generalize (if 0 = n then base else base / (2 : Int) ^ n) = reward
  by_cases hb : b < 0
  · simp [hb]
  · by_cases hr : b < reward
    · simp [hb, hr]
    · simp [hb, hr]

/-- On any readable balance `calcRewardMountByNumber` returns an integer, whatever the
sign of the base amount. -/
theorem calcRewardMountByNumber_returns (E : Env) (br : BlockReward) (st : StateDB)
    (base : Int) (num halfNum : Nat) (addr : Address) (ty : Nat) (b : Int)
    (hst : br.st = some st)
    (hbal : (st.GetBalance addr).get? E.MainAccount = some ⟨ty, some b⟩) :
    ∃ r, calcRewardMountByNumber E br base num halfNum addr = .ok (some r) := by
  by_cases hbase : 0 ≤ base
  · exact ⟨_, calcRewardMountByNumber_readable E br st base num halfNum addr ty b hbase hst hbal⟩
  · refine ⟨0, ?_⟩
    unfold calcRewardMountByNumber
    simp [not_le.mp hbase]

/-! ## The halving calculator -/

/-- C1: for every base >= 0, every num and halfNum, a non-nil state and a readable
treasury balance whose main-account balance is at least the computed amount,
`calcRewardMountByNumber` returns `base` when `halfNum = 0` or `num < halfNum`, and
`floor(base / 2^floor(num/halfNum))` otherwise. -/
theorem calcRewardMountByNumber_halving (E : Env) (br : BlockReward) (st : StateDB)
    (base : Int) (num halfNum : Nat) (addr : Address) (ty : Nat) (b : Int)
    (hbase : 0 ≤ base) (hst : br.st = some st)
    (hbal : (st.GetBalance addr).get? E.MainAccount = some ⟨ty, some b⟩)
    (hfund : halvingReward base num halfNum ≤ b) :
    calcRewardMountByNumber E br base num halfNum addr =
      .ok (some (halvingReward base num halfNum)) := by
  rw [calcRewardMountByNumber_readable E br st base num halfNum addr ty b hbase hst hbal]
  rw [halvedInt_eq_halvedAmount, halvedAmount_eq_halvingReward]
  have hnn : 0 ≤ halvingReward base num halfNum := by
    rw [← halvedAmount_eq_halvingReward, ← halvedInt_eq_halvedAmount]
    exact halvedInt_nonneg base num halfNum hbase
  have hb : ¬ b < 0 := not_lt.mpr (le_trans hnn hfund)
  have hb2 : ¬ b < halvingReward base num halfNum := not_lt.mpr hfund
  simp [hb, hb2]

/-- The worked example of the specification: base 100 and a halving interval of 50 pay
100 at heights 0 and 49, 50 at heights 50 and 99, and 25 at heights 100 and 149. -/
theorem calcRewardMountByNumber_halving_witness :
    (0 : Int) ≤ 100 ∧
    calcRewardMountByNumber demoEnv (demoEngine 1000 1 50) 100 0 50 1001 = .ok (some 100) ∧
    calcRewardMountByNumber demoEnv (demoEngine 1000 1 50) 100 49 50 1001 = .ok (some 100) ∧
    calcRewardMountByNumber demoEnv (demoEngine 1000 1 50) 100 50 50 1001 = .ok (some 50) ∧
    calcRewardMountByNumber demoEnv (demoEngine 1000 1 50) 100 99 50 1001 = .ok (some 50) ∧
    calcRewardMountByNumber demoEnv (demoEngine 1000 1 50) 100 100 50 1001 = .ok (some 25) ∧
    calcRewardMountByNumber demoEnv (demoEngine 1000 1 50) 100 149 50 1001 = .ok (some 25) := by
  have hval : ∀ num v, halvedInt 100 num 50 = v → halvingReward 100 num 50 = v := by
    intro num v h
    rw [← halvedAmount_eq_halvingReward, ← halvedInt_eq_halvedAmount, h]
  have key : ∀ num v, halvedInt 100 num 50 = v → v ≤ 1000 →
      calcRewardMountByNumber demoEnv (demoEngine 1000 1 50) 100 num 50 1001 = .ok (some v) := by
    intro num v h hv
    have h1 := calcRewardMountByNumber_halving demoEnv (demoEngine 1000 1 50) (demoState 1000)
      100 num 50 1001 0 1000 (by decide) rfl rfl (by rw [hval num v h]; exact hv)
    rw [hval num v h] at h1
    exact h1
  exact ⟨by decide, key 0 100 (by decide) (by decide), key 49 100 (by decide) (by decide),
    key 50 50 (by decide) (by decide), key 99 50 (by decide) (by decide),
    key 100 25 (by decide) (by decide), key 149 25 (by decide) (by decide)⟩

/-- C6: for every base >= 0, num, halfNum and readable balance, if the main-account
balance of the treasury is strictly less than the halved amount `floor(base / 2^n)`
(`n = 0` if `halfNum = 0`, else `num / halfNum`), `calcRewardMountByNumber` returns 0:
an integer, not `nil`, not an abort and not a partial amount. -/
theorem calcRewardMountByNumber_insufficient (E : Env) (br : BlockReward) (st : StateDB)
    (base : Int) (num halfNum : Nat) (addr : Address) (ty : Nat) (b : Int)
    (hbase : 0 ≤ base) (hst : br.st = some st)
    (hbal : (st.GetBalance addr).get? E.MainAccount = some ⟨ty, some b⟩)
    (hlt : b < halvedAmount base num halfNum) :
    calcRewardMountByNumber E br base num halfNum addr = .ok (some 0) := by
  rw [calcRewardMountByNumber_readable E br st base num halfNum addr ty b hbase hst hbal]
  rw [← halvedInt_eq_halvedAmount] at hlt
  by_cases hb : b < 0
  · simp [hb]
  · simp [hb, hlt]

/-- A treasury holding 10 cannot pay the halved amount 50 of base 100 at height 75 with a
halving interval of 50: the result is 0. -/
theorem calcRewardMountByNumber_insufficient_witness :
    (10 : Int) < halvedAmount 100 75 50 ∧
    calcRewardMountByNumber demoEnv (demoEngine 10 1 50) 100 75 50 1001 = .ok (some 0) := by
  have hlt : (10 : Int) < halvedAmount 100 75 50 := by
    rw [← halvedInt_eq_halvedAmount]
    decide
  exact ⟨hlt, calcRewardMountByNumber_insufficient demoEnv (demoEngine 10 1 50) (demoState 10)
    100 75 50 1001 0 10 (by decide) rfl rfl hlt⟩

/-- C7: for every base >= 0, num, halfNum and readable non-negative main-account balance
`b` of the treasury address, `calcRewardMountByNumber` returns an integer and that
integer is at most `b`. -/
theorem calcRewardMountByNumber_le_balance (E : Env) (br : BlockReward) (st : StateDB)
    (base : Int) (num halfNum : Nat) (addr : Address) (ty : Nat) (b : Int)
    (hbase : 0 ≤ base) (hst : br.st = some st)
    (hbal : (st.GetBalance addr).get? E.MainAccount = some ⟨ty, some b⟩)
    (hb : 0 ≤ b) :
    ∃ r, calcRewardMountByNumber E br base num halfNum addr = .ok (some r) ∧ r ≤ b := by
  rw [calcRewardMountByNumber_readable E br st base num halfNum addr ty b hbase hst hbal]
  refine ⟨_, rfl, ?_⟩
  have hnb : ¬ b < 0 := not_lt.mpr hb
  simp only [hnb, if_false]
  split
  · exact hb
  · rename_i h
    exact not_lt.mp h

/-- A treasury holding 60 pays 50 (at most 60) at height 75 and 0 (not 100) at height 10. -/
theorem calcRewardMountByNumber_le_balance_witness :
    (∃ r, calcRewardMountByNumber demoEnv (demoEngine 60 1 50) 100 75 50 1001 = .ok (some r) ∧
      r ≤ 60) ∧
    calcRewardMountByNumber demoEnv (demoEngine 60 1 50) 100 75 50 1001 = .ok (some 50) ∧
    calcRewardMountByNumber demoEnv (demoEngine 60 1 50) 100 10 50 1001 = .ok (some 0) :=
  ⟨calcRewardMountByNumber_le_balance demoEnv (demoEngine 60 1 50) (demoState 60)
    100 75 50 1001 0 60 (by decide) rfl rfl (by decide), rfl, rfl⟩

/-- C8: for every non-negative base, every num, halfNum and every state (absent,
unreadable or readable), whenever `calcRewardMountByNumber` returns a value `r`,
`0 <= r <= base`. -/
theorem calcRewardMountByNumber_bounds (E : Env) (br : BlockReward)
    (base : Int) (num halfNum : Nat) (addr : Address) (r : Int)
    (hbase : 0 ≤ base)
    (hret : calcRewardMountByNumber E br base num halfNum addr = .ok (some r)) :
    0 ≤ r ∧ r ≤ base := by
  have hnb : ¬ base < 0 := not_lt.mpr hbase
  cases hs : br.st with
  | none =>
    unfold calcRewardMountByNumber at hret
    simp only [hnb, if_false, hs] at hret
    cases hret
    exact ⟨le_refl 0, hbase⟩
  | some st =>
    cases hg : (st.GetBalance addr).get? E.MainAccount with
    | none =>
      unfold calcRewardMountByNumber at hret
      simp only [hnb, if_false, hs, hg] at hret
      split at hret <;> cases hret
    | some slice =>
      obtain ⟨ty, bal⟩ := slice
      cases bal with
      | none =>
        unfold calcRewardMountByNumber at hret
        simp only [hnb, if_false, hs, hg] at hret
        split at hret <;> cases hret
      | some b =>
        rw [calcRewardMountByNumber_readable E br st base num halfNum addr ty b hbase hs hg]
          at hret
        have hr : (if b < 0 then 0
            else if b < halvedInt base num halfNum then 0 else halvedInt base num halfNum) = r := by
          injection hret with h1
          injection h1
        rw [← hr]
        have h0 := halvedInt_nonneg base num halfNum hbase
        have h1 := halvedInt_le base num halfNum hbase
        split
        · exact ⟨le_refl 0, hbase⟩
        · split
          · exact ⟨le_refl 0, hbase⟩
          · exact ⟨h0, h1⟩

/-- The function returns 50 on base 100 at height 75 with interval 50, and 50 lies in
`[0, 100]`. -/
theorem calcRewardMountByNumber_bounds_witness :
    calcRewardMountByNumber demoEnv (demoEngine 1000 1 50) 100 75 50 1001 = .ok (some 50) ∧
    ((0 : Int) ≤ 50 ∧ (50 : Int) ≤ 100) :=
  ⟨rfl, calcRewardMountByNumber_bounds demoEnv (demoEngine 1000 1 50) 100 75 50 1001 50
    (by decide) rfl⟩

/-- With a zero main-account balance the halving calculator returns 0 for every base. -/
theorem calcRewardMountByNumber_zero_balance (E : Env) (br : BlockReward) (st : StateDB)
    (base : Int) (num halfNum : Nat) (addr : Address) (ty : Nat)
    (hst : br.st = some st)
    (hbal : (st.GetBalance addr).get? E.MainAccount = some ⟨ty, some 0⟩) :
    calcRewardMountByNumber E br base num halfNum addr = .ok (some 0) := by
  by_cases hbase : 0 ≤ base
  · rw [calcRewardMountByNumber_readable E br st base num halfNum addr ty 0 hbase hst hbal]
    have h0 := halvedInt_nonneg base num halfNum hbase
    by_cases hpos : 0 < halvedInt base num halfNum
    · simp [hpos]
    · have hz : halvedInt base num halfNum = 0 := le_antisymm (not_lt.mp hpos) h0
      simp [hz]
  · unfold calcRewardMountByNumber
    simp [not_le.mp hbase]

/-! ## The orchestration entry points -/

/-- C2: for every engine with a non-nil reward config and readable treasury balances,
and every height `num` for which `bcInterval.IsBroadcastNumber num` is true, each of
`CalcValidatorRewards`, `CalcMinerRewards` and `CalcNodesRewards` returns `nil`,
whatever the pool size or the fee amount. -/
theorem broadcast_heights_never_pay (E : Env) (br : BlockReward) (cfg : RewardCfg)
    (st : StateDB) (Leader : Address) (num : Nat) (parentHash : Hash) (amount : Int)
    (tyV tyM : Nat) (bV bM : Int)
    (hcfg : br.rewardCfg = some cfg) (hst : br.st = some st)
    (hbalV : (st.GetBalance E.BlkValidatorRewardAddress).get? E.MainAccount
      = some ⟨tyV, some bV⟩)
    (hbalM : (st.GetBalance E.BlkMinerRewardAddress).get? E.MainAccount
      = some ⟨tyM, some bM⟩)
    (hbc : br.bcInterval.IsBroadcastNumber num = true) :
    CalcValidatorRewards E br Leader num = .ok none ∧
    CalcMinerRewards E br num parentHash = .ok none ∧
    CalcNodesRewards E br amount Leader num parentHash = .ok none := by
  refine ⟨?_, ?_, ?_⟩
  · obtain ⟨r, hr⟩ := calcRewardMountByNumber_returns E br st
      ((cfg.RewardMount.ValidatorMount : Int) * E.ManPrice) (uint64Pred num)
      cfg.RewardMount.ValidatorHalf E.BlkValidatorRewardAddress tyV bV hst hbalV
    unfold CalcValidatorRewards
    simp only [hcfg, hr, hbc, if_true]
    split <;> rfl
  · obtain ⟨r, hr⟩ := calcRewardMountByNumber_returns E br st
      ((cfg.RewardMount.MinerMount : Int) * E.ManPrice) (uint64Pred num)
      cfg.RewardMount.MinerHalf E.BlkMinerRewardAddress tyM bM hst hbalM
    unfold CalcMinerRewards
    simp only [hcfg, hr, hbc, if_true]
    split <;> rfl
  · unfold CalcNodesRewards
    simp only [hcfg, hbc, if_true]

/-- The scenario of the specification: a fee total of 1000 with MinersRate 30 and
ValidatorsRate 70 on the broadcast height 200 pays nothing, as do the fixed rewards. -/
theorem broadcast_heights_never_pay_witness :
    CalcValidatorRewards demoEnv (demoEngine (10 ^ 20) 1 50) 5 200 = .ok none ∧
    CalcMinerRewards demoEnv (demoEngine (10 ^ 20) 1 50) 200 0 = .ok none ∧
    CalcNodesRewards demoEnv (demoEngine (10 ^ 20) 1 50) 1000 5 200 0 = .ok none :=
  broadcast_heights_never_pay demoEnv (demoEngine (10 ^ 20) 1 50) (demoCfg 1 50)
    (demoState (10 ^ 20)) 5 200 0 1000 0 0 (10 ^ 20) (10 ^ 20) rfl rfl rfl rfl rfl

/-- C9: for every engine with a non-nil config, every height and parent hash, if the
main-account balance of `BlkMinerRewardAddress` read from the state is 0,
`CalcMinerRewards` returns `nil`, for every `MinerMount` and `MinerHalf`. -/
theorem CalcMinerRewards_empty_treasury (E : Env) (br : BlockReward) (cfg : RewardCfg)
    (st : StateDB) (num : Nat) (parentHash : Hash) (ty : Nat)
    (hcfg : br.rewardCfg = some cfg) (hst : br.st = some st)
    (hbal : (st.GetBalance E.BlkMinerRewardAddress).get? E.MainAccount = some ⟨ty, some 0⟩) :
    CalcMinerRewards E br num parentHash = .ok none := by
  have hr := calcRewardMountByNumber_zero_balance E br st
    ((cfg.RewardMount.MinerMount : Int) * E.ManPrice) (uint64Pred num)
    cfg.RewardMount.MinerHalf E.BlkMinerRewardAddress ty hst hbal
  unfold CalcMinerRewards
  simp only [hcfg, hr]
  rfl

/-- An empty miner treasury pays nothing at the non-broadcast height 3, with a positive
base amount and with `MinerMount = 0`. -/
theorem CalcMinerRewards_empty_treasury_witness :
    CalcMinerRewards demoEnv (demoEngine 0 1 50) 3 0 = .ok none ∧
    CalcMinerRewards demoEnv (demoEngine 0 0 50) 3 0 = .ok none :=
  ⟨CalcMinerRewards_empty_treasury demoEnv (demoEngine 0 1 50) (demoCfg 1 50) (demoState 0)
    3 0 0 rfl rfl rfl, rfl⟩

/-- C10: for every engine with a non-nil config, every leader, height and parent hash,
`CalcNodesRewards` returns `nil` whenever the fee amount is `<= 0`. -/
theorem CalcNodesRewards_nonpositive (E : Env) (br : BlockReward) (cfg : RewardCfg)
    (amount : Int) (Leader : Address) (num : Nat) (parentHash : Hash)
    (hcfg : br.rewardCfg = some cfg) (hamount : amount ≤ 0) :
    CalcNodesRewards E br amount Leader num parentHash = .ok none := by
  unfold CalcNodesRewards getMinerRewards calcMinerRateMount
  simp only [hcfg, hamount, if_true]
  split <;> rfl

/-- Fee totals of 0 and of -5 pay nothing at the non-broadcast height 3. -/
theorem CalcNodesRewards_nonpositive_witness :
    CalcNodesRewards demoEnv (demoEngine 0 1 50) 0 5 3 0 = .ok none ∧
    CalcNodesRewards demoEnv (demoEngine 0 1 50) (-5) 5 3 0 = .ok none :=
  ⟨CalcNodesRewards_nonpositive demoEnv (demoEngine 0 1 50) (demoCfg 1 50) 0 5 3 0 rfl
    (by decide),
   CalcNodesRewards_nonpositive demoEnv (demoEngine 0 1 50) (demoCfg 1 50) (-5) 5 3 0 rfl
    (by decide)⟩

/-! ## The foundation allocator and the rate splits -/

/-- C4: for every amount and height, `calcFoundationRewards amount num` returns `nil` if
`num` is a broadcast height or `amount <= 0`; otherwise it returns the map with exactly
one entry, `foundationAccount -> amount`. -/
theorem calcFoundationRewards_gate (br : BlockReward) (amount : Int) (num : Nat) :
    calcFoundationRewards br amount num =
      if br.bcInterval.IsBroadcastNumber num = true ∨ amount ≤ 0 then none
      else some [(br.foundationAccount, amount)] := by
  unfold calcFoundationRewards canCalcFoundationRewards
  by_cases hbc : br.bcInterval.IsBroadcastNumber num = true
  · simp [hbc]
  · by_cases ha : amount ≤ 0
    · simp [hbc, ha]
    · simp [hbc, ha]

/-- The model of the rate splitter agrees with the formula of the specification. -/
theorem CalcRateReward_eq_rateSplit (E : Env) (total : Int) (rate : Nat) :
    CalcRateReward E total rate = rateSplit E total rate := by
  unfold CalcRateReward rateSplit
  exact (Rat.floor_intCast_div_natCast (total * (rate : Int)) E.RewardFullRate).symm

/-- C5: for every pool `P`, `calcValidatorRateMount P` is the triple of the splits of `P`
by LeaderRate, ElectedValidatorsRate and FoundationValidatorRate, `calcMinerRateMount P`
the triple of the splits by MinerOutRate, ElectedMinerRate and FoundationMinerRate, with
`split(total, r) = floor(total * r / fullRateUnit)`; on a non-broadcast height
`getValidatorRewards` merges the leader strategy applied to the first amount, the elected
strategy applied to the second (with the validator role mask and BackupRewardRate) and
the foundation entry for the third, which is present exactly when that amount is
positive. -/
theorem three_way_pool_split (E : Env) (br : BlockReward) (cfg : RewardCfg) (P : Int)
    (Leader : Address) (num : Nat)
    (hcfg : br.rewardCfg = some cfg)
    (hnb : br.bcInterval.IsBroadcastNumber num = false) :
    calcValidatorRateMount E br P =
      .ok (rateSplit E P cfg.RewardMount.RewardRate.LeaderRate,
        rateSplit E P cfg.RewardMount.RewardRate.ElectedValidatorsRate,
        rateSplit E P cfg.RewardMount.RewardRate.FoundationValidatorRate) ∧
    calcMinerRateMount E br P =
      .ok (rateSplit E P cfg.RewardMount.RewardRate.MinerOutRate,
        rateSplit E P cfg.RewardMount.RewardRate.ElectedMinerRate,
        rateSplit E P cfg.RewardMount.RewardRate.FoundationMinerRate) ∧
    getValidatorRewards E br P Leader num =
      .ok (MergeReward
        (MergeReward
          (MergeReward []
            (cfg.SetReward.SetLeaderRewards
              (rateSplit E P cfg.RewardMount.RewardRate.LeaderRate) Leader num))
          (cfg.SetReward.GetSelectedRewards
            (rateSplit E P cfg.RewardMount.RewardRate.ElectedValidatorsRate) br.st br.chain
            (E.RoleValidator ||| E.RoleBackupValidator) num
            cfg.RewardMount.RewardRate.BackupRewardRate))
        (if rateSplit E P cfg.RewardMount.RewardRate.FoundationValidatorRate ≤ 0 then none
          else some [(br.foundationAccount,
            rateSplit E P cfg.RewardMount.RewardRate.FoundationValidatorRate)])) := by
  refine ⟨?_, ?_, ?_⟩
  · unfold calcValidatorRateMount
    simp only [hcfg, CalcRateReward_eq_rateSplit]
  · unfold calcMinerRateMount
    simp only [hcfg, CalcRateReward_eq_rateSplit]
  · unfold getValidatorRewards calcValidatorRateMount
    unfold calcFoundationRewards canCalcFoundationRewards
    simp only [hcfg, CalcRateReward_eq_rateSplit, hnb]
    by_cases hpos : rateSplit E P cfg.RewardMount.RewardRate.FoundationValidatorRate ≤ 0
    · simp [hpos]
    · simp [hpos]

/-- The scenario of the specification: rates 40/50/10 of 100 and a pool of 100 on the
non-broadcast height 3 give the leader (address 5) 40, the elected pool 50 and the
foundation (address 7) 10. -/
theorem three_way_pool_split_witness :
    calcValidatorRateMount demoEnv (demoEngine 0 1 50) 100 = .ok (40, 50, 10) ∧
    calcMinerRateMount demoEnv (demoEngine 0 1 50) 100 = .ok (40, 50, 10) ∧
    getValidatorRewards demoEnv (demoEngine 0 1 50) 100 5 3
      = .ok [(5, 40), (512, 50), (7, 10)] := by
  have h := three_way_pool_split demoEnv (demoEngine 0 1 50) (demoCfg 1 50) 100 5 3 rfl rfl
  have e40 : rateSplit demoEnv 100 40 = 40 := by
    rw [← CalcRateReward_eq_rateSplit]; decide
  have e50 : rateSplit demoEnv 100 50 = 50 := by
    rw [← CalcRateReward_eq_rateSplit]; decide
  have e10 : rateSplit demoEnv 100 10 = 10 := by
    rw [← CalcRateReward_eq_rateSplit]; decide
  have r1 : (demoCfg 1 50).RewardMount.RewardRate.LeaderRate = 40 := rfl
  have r2 : (demoCfg 1 50).RewardMount.RewardRate.ElectedValidatorsRate = 50 := rfl
  have r3 : (demoCfg 1 50).RewardMount.RewardRate.FoundationValidatorRate = 10 := rfl
  have r4 : (demoCfg 1 50).RewardMount.RewardRate.MinerOutRate = 40 := rfl
  have r5 : (demoCfg 1 50).RewardMount.RewardRate.ElectedMinerRate = 50 := rfl
  have r6 : (demoCfg 1 50).RewardMount.RewardRate.FoundationMinerRate = 10 := rfl
  rw [r1, r2, r3, r4, r5, r6, e40, e50, e10] at h
  exact ⟨h.1, h.2.1, h.2.2.trans rfl⟩

/-! ## The constructor -/

/-- Refutation of C3 as stated: the miner group of `wrappedRates` sums to `2 ^ 64 + 100`,
not to the full rate unit 100, yet `New` returns an engine, because the `uint64` sum
wraps to 100. -/
theorem New_accepts_wrapped_rate_sum :
    wrappedRates.MinerOutRate + wrappedRates.ElectedMinerRate
        + wrappedRates.FoundationMinerRate ≠ demoEnv.RewardFullRate ∧
    ∃ br, New demoEnv { id := 0 } (some (cfgWithRates wrappedRates)) (some (demoState 0))
        = .ok (some br) ∧ br.foundationAccount = 7 :=
  ⟨by decide, _, rfl, rfl⟩

/-- C3 (amended): for every rate table in which any one of the three groups, summed as
the `uint64` addition of `New` computes it (modulo `2 ^ 64`), differs from
`RewardFullRate`, `New` returns `nil`, regardless of the chain-state contents. -/
theorem New_rejects_bad_rate_group (E : Env) (chain : ChainReader) (cfg : RewardCfg)
    (st : Option StateDB)
    (hbad :
      uint64Add3 cfg.RewardMount.RewardRate.MinerOutRate
          cfg.RewardMount.RewardRate.ElectedMinerRate
          cfg.RewardMount.RewardRate.FoundationMinerRate ≠ E.RewardFullRate ∨
      uint64Add3 cfg.RewardMount.RewardRate.LeaderRate
          cfg.RewardMount.RewardRate.ElectedValidatorsRate
          cfg.RewardMount.RewardRate.FoundationValidatorRate ≠ E.RewardFullRate ∨
      uint64Add2 cfg.RewardMount.RewardRate.OriginElectOfflineRate
          cfg.RewardMount.RewardRate.BackupRewardRate ≠ E.RewardFullRate) :
    New E chain (some cfg) st = .ok none := by
  unfold New
  simp only
  split
  · rfl
  · split
    · rfl
    · split
      · rfl
      · rename_i h1 h2 h3
        exfalso
        rcases hbad with h | h | h
        · exact h1 (fun e => h e.symm)
        · exact h2 (fun e => h e.symm)
        · exact h3 (fun e => h e.symm)

/-- The validator group 40/50/20 sums to 110: `New` returns `nil` on a state that holds
every chain-state value, and on a `nil` state. -/
theorem New_rejects_bad_rate_group_witness :
    New demoEnv { id := 0 } (some (cfgWithRates badRates)) (some (demoState 0)) = .ok none ∧
    New demoEnv { id := 0 } (some (cfgWithRates badRates)) none = .ok none :=
  ⟨New_rejects_bad_rate_group demoEnv { id := 0 } (cfgWithRates badRates)
      (some (demoState 0)) (Or.inr (Or.inl (by decide))),
   New_rejects_bad_rate_group demoEnv { id := 0 } (cfgWithRates badRates)
      none (Or.inr (Or.inl (by decide)))⟩

/-! ## Aborts of the fixed-reward entry points -/

/-- C11 (code at the failing input): on an engine whose `rewardCfg` is `nil` the
fixed-reward entry points `CalcValidatorRewards` and `CalcMinerRewards` abort with a nil
dereference instead of returning `nil`: they read `br.rewardCfg.RewardMount` before the
`nil == br.rewardCfg` test. `CalcNodesRewards`, which tests first, returns `nil`. -/
theorem fixed_rewards_abort_without_config :
    noCfgEngine.rewardCfg.isNone = true ∧
    CalcValidatorRewards demoEnv noCfgEngine 5 3 = .error .nilDereference ∧
    CalcMinerRewards demoEnv noCfgEngine 3 0 = .error .nilDereference ∧
    CalcNodesRewards demoEnv noCfgEngine 1000 5 3 0 = .ok none :=
  ⟨rfl, rfl, rfl, rfl⟩

/-- C12 (code at the failing input): when `GetBalance` returns the empty list,
`calcRewardMountByNumber` returns `nil` and the callers `CalcValidatorRewards` and
`CalcMinerRewards` abort with a nil dereference in `blockReward.Uint64()` instead of
returning a `nil` reward map. -/
theorem fixed_rewards_abort_on_unreadable_balance :
    emptyBalanceState.GetBalance demoEnv.BlkValidatorRewardAddress = [] ∧
    calcRewardMountByNumber demoEnv emptyBalanceEngine ((1 : Int) * demoEnv.ManPrice)
      (uint64Pred 3) 50 demoEnv.BlkValidatorRewardAddress = .ok none ∧
    CalcValidatorRewards demoEnv emptyBalanceEngine 5 3 = .error .nilDereference ∧
    CalcMinerRewards demoEnv emptyBalanceEngine 3 0 = .error .nilDereference :=
  ⟨rfl, rfl, rfl, rfl⟩

/-- C19 (code at the failing input): with `ValidatorMount = MinerMount = 2 ^ 46`, a price
unit of `10 ^ 18`, no halving and a treasury of `10 ^ 40`, the pool at the non-broadcast
height 3 is `2 ^ 64 * 5 ^ 18 > 0`, its low 64 bits are 0, and both fixed-reward entry
points return `nil` instead of the map of `getValidatorRewards` / `getMinerRewards`. -/
theorem zero_pool_gate_fires_on_positive_pool :
    (demoEngine (10 ^ 40) 70368744177664 0).bcInterval.IsBroadcastNumber 3 = false ∧
    calcRewardMountByNumber demoEnv (demoEngine (10 ^ 40) 70368744177664 0)
      ((70368744177664 : Int) * demoEnv.ManPrice) (uint64Pred 3) 0
      demoEnv.BlkValidatorRewardAddress = .ok (some (2 ^ 64 * 5 ^ 18)) ∧
    (0 : Int) < 2 ^ 64 * 5 ^ 18 ∧
    bigUint64 (2 ^ 64 * 5 ^ 18) = 0 ∧
    CalcValidatorRewards demoEnv (demoEngine (10 ^ 40) 70368744177664 0) 5 3 = .ok none ∧
    CalcMinerRewards demoEnv (demoEngine (10 ^ 40) 70368744177664 0) 3 0 = .ok none :=
  ⟨rfl, rfl, by decide, by decide, rfl, rfl⟩

/-! ## The constructor of `blkreward` -/

/-- C18 (code at the failing input): the state holds a block-reward configuration that
is present, of the right type and not stopped, its validator group 40/50/20 is rejected
by `rewardexec.New`, and `blkreward.New` returns the interface value that wraps the
`nil` pointer, which does not compare equal to `nil`. -/
theorem blkreward_New_returns_typed_nil :
    New demoEnv { id := 0 } (demoBlkEnv.cfgNew "1"
        { MinerMount := 1, MinerHalf := 50, ValidatorMount := 1, ValidatorHalf := 50,
          RewardRate := badRates })
      (some (blkRewardState badRates)) = .ok none ∧
    ∃ r, blkreward.New demoEnv demoBlkEnv { id := 0 } (some (blkRewardState badRates))
        = .ok r ∧ r.isNil = false :=
  ⟨rfl, _, rfl, rfl⟩

/-! ## Clamping and monotonicity of the halving calculator -/

/-- The halved amount is the quotient by the power of two of the halving count. -/
theorem halvedInt_eq_div (base : Int) (num halfNum : Nat) :
    halvedInt base num halfNum
      = base / (2 : Int) ^ (if 0 ≠ halfNum then num / halfNum else 0) := by
  unfold halvedInt
  generalize (if 0 ≠ halfNum then num / halfNum else 0) = n
  split
  · rename_i h
    rw [← h]
    simp
  · rfl

/-- Dividing a non-negative integer by `2 ^ (n + m)` is dividing by `2 ^ n`, then by
`2 ^ m`. -/
theorem int_div_two_pow_add (a : Int) (ha : 0 ≤ a) (n m : Nat) :
    a / (2 : Int) ^ (n + m) = a / (2 : Int) ^ n / (2 : Int) ^ m := by
  obtain ⟨k, rfl⟩ := Int.eq_ofNat_of_zero_le ha
  have cast : ∀ (x j : Nat), (x : Int) / (2 : Int) ^ j = ((x / 2 ^ j : Nat) : Int) := by
    intro x j
    push_cast
    rfl
  rw [cast, cast, cast, pow_add, Nat.div_div_eq_div_mul]

/-- With a treasury that covers the base amount the calculator returns the halved
amount. -/
theorem calcRewardMountByNumber_funded (E : Env) (br : BlockReward) (st : StateDB)
    (base : Int) (num halfNum : Nat) (addr : Address) (ty : Nat) (b : Int)
    (hbase : 0 ≤ base) (hst : br.st = some st)
    (hbal : (st.GetBalance addr).get? E.MainAccount = some ⟨ty, some b⟩)
    (hb : base ≤ b) :
    calcRewardMountByNumber E br base num halfNum addr
      = .ok (some (halvedInt base num halfNum)) := by
  rw [calcRewardMountByNumber_readable E br st base num halfNum addr ty b hbase hst hbal]
  have h1 := halvedInt_le base num halfNum hbase
  have hb0 : ¬ b < 0 := not_lt.mpr (le_trans hbase hb)
  have hb1 : ¬ b < halvedInt base num halfNum := not_lt.mpr (le_trans h1 hb)
  simp [hb0, hb1]

/-- On a negative base amount the calculator returns 0. -/
theorem calcRewardMountByNumber_negative (E : Env) (br : BlockReward)
    (base : Int) (num halfNum : Nat) (addr : Address) (hbase : base < 0) :
    calcRewardMountByNumber E br base num halfNum addr = .ok (some 0) := by
  unfold calcRewardMountByNumber
  simp [hbase]

/-- Refutation of C13 as stated: a treasury of 10 is below the halved amount 50 of base
100 at height 75 with interval 50, the lesser value is 10, and the calculator returns 0,
not 10. -/
theorem calcRewardMountByNumber_not_lesser_value :
    (10 : Int) < halvedAmount 100 75 50 ∧
    min (10 : Int) (halvedAmount 100 75 50) = 10 ∧
    calcRewardMountByNumber demoEnv (demoEngine 10 1 50) 100 75 50 1001 = .ok (some 0) ∧
    calcRewardMountByNumber demoEnv (demoEngine 10 1 50) 100 75 50 1001 ≠ .ok (some 10) := by
  have hlt : (10 : Int) < halvedAmount 100 75 50 := by
    rw [← halvedInt_eq_halvedAmount]
    decide
  have hcalc : calcRewardMountByNumber demoEnv (demoEngine 10 1 50) 100 75 50 1001
      = .ok (some 0) := rfl
  refine ⟨hlt, min_eq_left (le_of_lt hlt), hcalc, ?_⟩
  rw [hcalc]
  intro h
  injection h with h1
  injection h1 with h2
  exact absurd h2 (by decide)

/-- C13 (amended): for every base >= 0, num, halfNum and readable non-negative treasury
main-account balance `b`, if `b` is less than the halved amount `h = floor(base / 2^n)`,
`calcRewardMountByNumber` returns 0; this is the lesser value `min(b, h) = b` only when
`b = 0`. -/
theorem calcRewardMountByNumber_clamps_to_zero (E : Env) (br : BlockReward) (st : StateDB)
    (base : Int) (num halfNum : Nat) (addr : Address) (ty : Nat) (b : Int)
    (hbase : 0 ≤ base) (hst : br.st = some st)
    (hbal : (st.GetBalance addr).get? E.MainAccount = some ⟨ty, some b⟩)
    (hb : 0 ≤ b) (hlt : b < halvedAmount base num halfNum) :
    calcRewardMountByNumber E br base num halfNum addr = .ok (some 0) ∧
    (calcRewardMountByNumber E br base num halfNum addr
        = .ok (some (min b (halvedAmount base num halfNum))) ↔ b = 0) := by
  have hcalc : calcRewardMountByNumber E br base num halfNum addr = .ok (some 0) := by
    rw [calcRewardMountByNumber_readable E br st base num halfNum addr ty b hbase hst hbal]
    rw [← halvedInt_eq_halvedAmount] at hlt
    have hb0 : ¬ b < 0 := not_lt.mpr hb
    simp [hb0, hlt]
  refine ⟨hcalc, ?_⟩
  rw [hcalc, min_eq_left (le_of_lt hlt)]
  constructor
  · intro h
    injection h with h1
    injection h1 with h2
    exact h2.symm
  · intro h
    rw [h]

/-- A treasury of 10 below the halved amount 50: the result is 0, and it is not the
lesser value because the balance is not 0. -/
theorem calcRewardMountByNumber_clamps_to_zero_witness :
    calcRewardMountByNumber demoEnv (demoEngine 10 1 50) 100 75 50 1001 = .ok (some 0) ∧
    (calcRewardMountByNumber demoEnv (demoEngine 10 1 50) 100 75 50 1001
        = .ok (some (min 10 (halvedAmount 100 75 50))) ↔ (10 : Int) = 0) :=
  calcRewardMountByNumber_clamps_to_zero demoEnv (demoEngine 10 1 50) (demoState 10)
    100 75 50 1001 0 10 (by decide) rfl rfl (by decide)
    (by rw [← halvedInt_eq_halvedAmount]; decide)

/-- C17: for every `halfNum > 0`, every base and a treasury balance of at least `base`,
whenever the reward at `num` is positive the reward at `num + halfNum` is strictly
smaller; and the reward is non-increasing in `num`. Both rewards are returned integers. -/
theorem rewards_shrink_each_halving (E : Env) (br : BlockReward) (st : StateDB)
    (base : Int) (halfNum : Nat) (addr : Address) (ty : Nat) (b : Int)
    (hhalf : 0 < halfNum) (hst : br.st = some st)
    (hbal : (st.GetBalance addr).get? E.MainAccount = some ⟨ty, some b⟩)
    (hb : base ≤ b) :
    (∀ num r, calcRewardMountByNumber E br base num halfNum addr = .ok (some r) → 0 < r →
      ∃ r', calcRewardMountByNumber E br base (num + halfNum) halfNum addr = .ok (some r') ∧
        r' < r) ∧
    (∀ num1 num2, num1 ≤ num2 →
      ∃ r1 r2, calcRewardMountByNumber E br base num1 halfNum addr = .ok (some r1) ∧
        calcRewardMountByNumber E br base num2 halfNum addr = .ok (some r2) ∧ r2 ≤ r1) := by
  have hne : (0 : Nat) ≠ halfNum := Nat.ne_of_lt hhalf
  by_cases hbase : 0 ≤ base
  · have hval : ∀ num, calcRewardMountByNumber E br base num halfNum addr
        = .ok (some (base / (2 : Int) ^ (num / halfNum))) := by
      intro num
      rw [calcRewardMountByNumber_funded E br st base num halfNum addr ty b hbase hst hbal hb,
        halvedInt_eq_div]
      simp [hne]
    constructor
    · intro num r hr hpos
      rw [hval num] at hr
      have hr' : base / (2 : Int) ^ (num / halfNum) = r := by
        injection hr with h1
        injection h1
      refine ⟨base / (2 : Int) ^ ((num + halfNum) / halfNum), hval _, ?_⟩
      rw [Nat.add_div_right num hhalf, int_div_two_pow_add base hbase, hr']
      have h2 : ((2 : Int) ^ 1) = 2 := by norm_num
      rw [h2]
      omega
    · intro num1 num2 hle
      refine ⟨_, _, hval num1, hval num2, ?_⟩
      obtain ⟨d, hd⟩ := Nat.exists_eq_add_of_le (Nat.div_le_div_right (c := halfNum) hle)
      rw [hd, int_div_two_pow_add base hbase]
      exact Int.ediv_le_self _ (Int.ediv_nonneg hbase (by positivity))
  · have hneg : base < 0 := not_le.mp hbase
    constructor
    · intro num r hr hpos
      rw [calcRewardMountByNumber_negative E br base num halfNum addr hneg] at hr
      have hr' : (0 : Int) = r := by
        injection hr with h1
        injection h1
      omega
    · intro num1 num2 _
      exact ⟨0, 0, calcRewardMountByNumber_negative E br base num1 halfNum addr hneg,
        calcRewardMountByNumber_negative E br base num2 halfNum addr hneg, le_refl 0⟩

/-- Base 100 with a halving interval of 50 and a treasury of 1000: the reward 50 at
height 75 shrinks at height 125, and the rewards are non-increasing in the height. -/
theorem rewards_shrink_each_halving_witness :
    calcRewardMountByNumber demoEnv (demoEngine 1000 1 50) 100 75 50 1001 = .ok (some 50) ∧
    (∃ r', calcRewardMountByNumber demoEnv (demoEngine 1000 1 50) 100 (75 + 50) 50 1001
        = .ok (some r') ∧ r' < 50) ∧
    (∀ num1 num2, num1 ≤ num2 →
      ∃ r1 r2, calcRewardMountByNumber demoEnv (demoEngine 1000 1 50) 100 num1 50 1001
          = .ok (some r1) ∧
        calcRewardMountByNumber demoEnv (demoEngine 1000 1 50) 100 num2 50 1001
          = .ok (some r2) ∧ r2 ≤ r1) :=
  have h := rewards_shrink_each_halving demoEnv (demoEngine 1000 1 50) (demoState 1000)
    100 50 1001 0 1000 (by decide) rfl rfl (by decide)
  ⟨rfl, h.1 75 50 rfl (by decide), h.2⟩

/-! ## Construction on the chain-state values -/

/-- An exact sum of three rates that equals a `uint64` full rate unit is also the sum
that the `uint64` addition computes. -/
theorem uint64Add3_of_exact (a b c F : Nat) (hF : F < uint64Mod) (h : a + b + c = F) :
    uint64Add3 a b c = F := by
  unfold uint64Add3
  rw [h, Nat.mod_eq_of_lt hF]

/-- An exact sum of two rates that equals a `uint64` full rate unit is also the sum that
the `uint64` addition computes. -/
theorem uint64Add2_of_exact (a b F : Nat) (hF : F < uint64Mod) (h : a + b = F) :
    uint64Add2 a b = F := by
  unfold uint64Add2
  rw [h, Nat.mod_eq_of_lt hF]

/-- C14: for every rate table whose three groups each sum to the full rate unit (a
`uint64` constant), `New` returns `nil` if and only if the broadcast-interval lookup
fails, or the foundation-account lookup does not yield an address, or the inner-miner
lookup does not yield an address list, or the broadcast interval cannot be built from
the looked-up value; and when all of these succeed it returns the engine whose
`foundationAccount`, `innerMinerAccounts`, `bcInterval`, `rewardCfg`, `chain` and `st`
are exactly the looked-up and supplied values. -/
theorem New_fails_closed (E : Env) (chain : ChainReader) (cfg : RewardCfg)
    (st : Option StateDB)
    (hfull : E.RewardFullRate < uint64Mod)
    (h1 : cfg.RewardMount.RewardRate.MinerOutRate + cfg.RewardMount.RewardRate.ElectedMinerRate
      + cfg.RewardMount.RewardRate.FoundationMinerRate = E.RewardFullRate)
    (h2 : cfg.RewardMount.RewardRate.LeaderRate
      + cfg.RewardMount.RewardRate.ElectedValidatorsRate
      + cfg.RewardMount.RewardRate.FoundationValidatorRate = E.RewardFullRate)
    (h3 : cfg.RewardMount.RewardRate.OriginElectOfflineRate
      + cfg.RewardMount.RewardRate.BackupRewardRate = E.RewardFullRate) :
    (New E chain (some cfg) st = .ok none ↔
      (GetDataByState E.MSKeyBroadcastInterval st = none ∨
       (¬ ∃ a, GetDataByState E.MSKeyAccountFoundation st = some (.address a)) ∨
       (¬ ∃ l, GetDataByState E.MSKeyAccountInnerMiners st = some (.addressList l)) ∨
       (∃ v, GetDataByState E.MSKeyBroadcastInterval st = some v ∧
          E.NewBCIntervalWithInterval v = none))) ∧
    (∀ v a l bc, GetDataByState E.MSKeyBroadcastInterval st = some v →
      GetDataByState E.MSKeyAccountFoundation st = some (.address a) →
      GetDataByState E.MSKeyAccountInnerMiners st = some (.addressList l) →
      E.NewBCIntervalWithInterval v = some bc →
      New E chain (some cfg) st = .ok (some
        { chain := chain
          rewardCfg := some cfg
          st := st
          foundationAccount := a
          innerMinerAccounts := l
          bcInterval := bc })) := by
  have e1 := uint64Add3_of_exact _ _ _ _ hfull h1
  have e2 := uint64Add3_of_exact _ _ _ _ hfull h2
  have e3 := uint64Add2_of_exact _ _ _ hfull h3
  constructor
  · unfold New
    simp only [e1, e2, e3, ne_eq, not_true_eq_false, if_false]
    cases hI : GetDataByState E.MSKeyBroadcastInterval st with
    | none => simp
    | some v =>
      cases hF : GetDataByState E.MSKeyAccountFoundation st with
      | none => simp
      | some d =>
        cases d with
        | address a =>
          cases hM : GetDataByState E.MSKeyAccountInnerMiners st with
          | none => simp
          | some d2 =>
            cases d2 with
            | addressList l =>
              cases hB : E.NewBCIntervalWithInterval v with
              | none => simp [hB]
              | some bc => simp [hB]
            | address _ => simp
            | other _ => simp
            | blkRewardCfg _ => simp
        | addressList _ => simp
        | other _ => simp
        | blkRewardCfg _ => simp
  · intro v a l bc hI hF hM hB
    unfold New
    simp only [e1, e2, e3, ne_eq, not_true_eq_false, if_false, hI, hF, hM, hB]

/-- On the state `demoState 0` every lookup succeeds and `New` returns the engine with
foundation account 7 and inner miners 8 and 9; it is not the `nil` engine. -/
theorem New_fails_closed_witness :
    New demoEnv { id := 0 } (some (demoCfg 1 50)) (some (demoState 0)) = .ok (some
      { chain := { id := 0 }
        rewardCfg := some (demoCfg 1 50)
        st := some (demoState 0)
        foundationAccount := 7
        innerMinerAccounts := [8, 9]
        bcInterval := demoInterval 100 }) ∧
    (New demoEnv { id := 0 } (some (demoCfg 1 50)) none = .ok none ↔
      (GetDataByState demoEnv.MSKeyBroadcastInterval none = none ∨
       (¬ ∃ a, GetDataByState demoEnv.MSKeyAccountFoundation none = some (.address a)) ∨
       (¬ ∃ l, GetDataByState demoEnv.MSKeyAccountInnerMiners none
          = some (.addressList l)) ∨
       (∃ v, GetDataByState demoEnv.MSKeyBroadcastInterval none = some v ∧
          demoEnv.NewBCIntervalWithInterval v = none))) :=
  ⟨(New_fails_closed demoEnv { id := 0 } (demoCfg 1 50) (some (demoState 0))
      (by decide) rfl rfl rfl).2 (.other 100) 7 [8, 9] (demoInterval 100) rfl rfl rfl rfl,
   (New_fails_closed demoEnv { id := 0 } (demoCfg 1 50) none
      (by decide) rfl rfl rfl).1⟩

/-! ## Rounding of the rate splits -/

/-- Three floor quotients of `P * a`, `P * b`, `P * c` by `F = a + b + c > 0` add up to
at most `P` and to at least `P - 2`. -/
theorem three_floor_bounds (P F a b c : Int) (hF : 0 < F) (hsum : a + b + c = F) :
    P * a / F + P * b / F + P * c / F ≤ P ∧ P - 2 ≤ P * a / F + P * b / F + P * c / F := by
  have e1 := Int.ediv_add_emod (P * a) F
  have e2 := Int.ediv_add_emod (P * b) F
  have e3 := Int.ediv_add_emod (P * c) F
  have hne : F ≠ 0 := ne_of_gt hF
  have n1 := Int.emod_nonneg (P * a) hne
  have n2 := Int.emod_nonneg (P * b) hne
  have n3 := Int.emod_nonneg (P * c) hne
  have l1 := Int.emod_lt_of_pos (P * a) hF
  have l2 := Int.emod_lt_of_pos (P * b) hF
  have l3 := Int.emod_lt_of_pos (P * c) hF
  generalize P * a / F = q1 at *
  generalize P * b / F = q2 at *
  generalize P * c / F = q3 at *
  generalize P * a % F = r1 at *
  generalize P * b % F = r2 at *
  generalize P * c % F = r3 at *
  have key : F * (P - (q1 + q2 + q3)) = r1 + r2 + r3 := by
    have hPF : P * F = P * a + P * b + P * c := by rw [← hsum]; ring
    linarith [hPF, e1, e2, e3, mul_comm F P, mul_sub F P (q1 + q2 + q3),
      mul_add F (q1 + q2) q3, mul_add F q1 q2]
  constructor
  · by_contra h
    have hd : P - (q1 + q2 + q3) ≤ -1 := by omega
    have hmul : F * (P - (q1 + q2 + q3)) ≤ F * (-1) :=
      mul_le_mul_of_nonneg_left hd (le_of_lt hF)
    linarith
  · by_contra h
    have hd : 3 ≤ P - (q1 + q2 + q3) := by omega
    have hmul : F * 3 ≤ F * (P - (q1 + q2 + q3)) :=
      mul_le_mul_of_nonneg_left hd (le_of_lt hF)
    linarith

/-- Three rate splits by rates that add up to the full rate unit lose at most 2 units
and never exceed the pool. -/
theorem CalcRateReward_three_bounds (E : Env) (P : Int) (a b c : Nat)
    (hsum : a + b + c = E.RewardFullRate) :
    CalcRateReward E P a + CalcRateReward E P b + CalcRateReward E P c ≤ P ∧
    P - 2 ≤ CalcRateReward E P a + CalcRateReward E P b + CalcRateReward E P c := by
  unfold CalcRateReward
  have hF : (0 : Int) < (E.RewardFullRate : Int) := by exact_mod_cast E.RewardFullRate_pos
  have hs : (a : Int) + (b : Int) + (c : Int) = (E.RewardFullRate : Int) := by
    exact_mod_cast hsum
  exact three_floor_bounds P _ _ _ _ hF hs

/-- For an engine whose validator group and miner group each sum exactly to the full rate
unit, the three shares of either rate-mount function are the floors
`floor(P * rate / full)`, and they sum to at most `P` and to at least `P - 2`. -/
theorem rateMounts_bounds_of_exact_sums (E : Env) (br : BlockReward) (cfg : RewardCfg) (P : Int)
    (hcfg : br.rewardCfg = some cfg)
    (hv : cfg.RewardMount.RewardRate.LeaderRate
      + cfg.RewardMount.RewardRate.ElectedValidatorsRate
      + cfg.RewardMount.RewardRate.FoundationValidatorRate = E.RewardFullRate)
    (hm : cfg.RewardMount.RewardRate.MinerOutRate + cfg.RewardMount.RewardRate.ElectedMinerRate
      + cfg.RewardMount.RewardRate.FoundationMinerRate = E.RewardFullRate) :
    (∃ l e f, calcValidatorRateMount E br P = .ok (l, e, f) ∧
      l = rateSplit E P cfg.RewardMount.RewardRate.LeaderRate ∧
      e = rateSplit E P cfg.RewardMount.RewardRate.ElectedValidatorsRate ∧
      f = rateSplit E P cfg.RewardMount.RewardRate.FoundationValidatorRate ∧
      l + e + f ≤ P ∧ P - 2 ≤ l + e + f) ∧
    (∃ o e f, calcMinerRateMount E br P = .ok (o, e, f) ∧
      o = rateSplit E P cfg.RewardMount.RewardRate.MinerOutRate ∧
      e = rateSplit E P cfg.RewardMount.RewardRate.ElectedMinerRate ∧
      f = rateSplit E P cfg.RewardMount.RewardRate.FoundationMinerRate ∧
      o + e + f ≤ P ∧ P - 2 ≤ o + e + f) := by
  constructor
  · refine ⟨_, _, _, ?_, rfl, rfl, rfl, ?_⟩
    · unfold calcValidatorRateMount
      simp only [hcfg, CalcRateReward_eq_rateSplit]
    · simp only [← CalcRateReward_eq_rateSplit]
      exact CalcRateReward_three_bounds E P _ _ _ hv
  · refine ⟨_, _, _, ?_, rfl, rfl, rfl, ?_⟩
    · unfold calcMinerRateMount
      simp only [hcfg, CalcRateReward_eq_rateSplit]
    · simp only [← CalcRateReward_eq_rateSplit]
      exact CalcRateReward_three_bounds E P _ _ _ hm

/-! ## The fee split -/

/-- An engine returned by `New` holds the configuration it was given. -/
theorem New_keeps_rewardCfg (E : Env) (chain : ChainReader) (cfg : RewardCfg)
    (st : Option StateDB) (br : BlockReward)
    (hnew : New E chain (some cfg) st = .ok (some br)) :
    br.rewardCfg = some cfg := by
  unfold New at hnew
  simp only at hnew
  repeat' split at hnew
  all_goals first
    | (injection hnew with h1; injection h1 with h2; rw [← h2])
    | (injection hnew with h1; injection h1)

/-- Two rate splits by rates that add up to at most the full rate unit stay within a
non-negative total. -/
theorem CalcRateReward_two_le (E : Env) (total : Int) (a b : Nat)
    (hsum : a + b ≤ E.RewardFullRate) (htotal : 0 ≤ total) :
    CalcRateReward E total a + CalcRateReward E total b ≤ total := by
  unfold CalcRateReward
  have hF : (0 : Int) < (E.RewardFullRate : Int) := by exact_mod_cast E.RewardFullRate_pos
  have hs : (a : Int) + (b : Int) ≤ (E.RewardFullRate : Int) := by exact_mod_cast hsum
  have hne : (E.RewardFullRate : Int) ≠ 0 := ne_of_gt hF
  have e1 := Int.ediv_add_emod (total * (a : Int)) (E.RewardFullRate : Int)
  have e2 := Int.ediv_add_emod (total * (b : Int)) (E.RewardFullRate : Int)
  have n1 := Int.emod_nonneg (total * (a : Int)) hne
  have n2 := Int.emod_nonneg (total * (b : Int)) hne
  generalize total * (a : Int) / (E.RewardFullRate : Int) = q1 at *
  generalize total * (b : Int) / (E.RewardFullRate : Int) = q2 at *
  generalize total * (a : Int) % (E.RewardFullRate : Int) = r1 at *
  generalize total * (b : Int) % (E.RewardFullRate : Int) = r2 at *
  generalize (E.RewardFullRate : Int) = F at *
  have hmul : total * ((a : Int) + (b : Int)) ≤ total * F :=
    mul_le_mul_of_nonneg_left hs htotal
  by_contra h
  have hd : total + 1 ≤ q1 + q2 := by omega
  have hmul2 : F * (total + 1) ≤ F * (q1 + q2) := mul_le_mul_of_nonneg_left hd (le_of_lt hF)
  linarith [mul_add total (a : Int) (b : Int), mul_add F q1 q2, mul_add F total 1,
    mul_comm F total]

/-! ## Merging reward maps -/

theorem rewardAt_addReward (a k : Address) (x : Int) (m : RewardMap) :
    rewardAt a (addReward k x m) = rewardAt a m + (if k = a then x else 0) := by
  induction m with
  | nil => simp [addReward, rewardAt]
  | cons p rest ih =>
    obtain ⟨k0, v⟩ := p
    by_cases hk : k0 = k
    · subst hk
      by_cases ha : k0 = a
      · simp [addReward, rewardAt, ha]
      · simp [addReward, rewardAt, ha]
    · by_cases ha : k0 = a
      · subst ha
        have hka : ¬ k = k0 := fun e => hk e.symm
        simp [addReward, rewardAt, hk, hka]
      · simp [addReward, rewardAt, hk, ha, ih]

/-- The keys after `addReward k` are `k` and the keys before. -/
theorem mem_rewardKeys_addReward (b k : Address) (x : Int) (m : RewardMap) :
    b ∈ rewardKeys (addReward k x m) ↔ b = k ∨ b ∈ rewardKeys m := by
  induction m with
  | nil => simp [addReward, rewardKeys]
  | cons p rest ih =>
    obtain ⟨k0, v⟩ := p
    unfold rewardKeys at ih
    by_cases hk : k0 = k
    · subst hk
      simp [addReward, rewardKeys]
    · simp only [addReward, hk, if_false, rewardKeys, List.map_cons, List.mem_cons, ih]
      tauto

/-- The function `addReward` keeps the keys distinct. -/
theorem nodup_rewardKeys_addReward (k : Address) (x : Int) (m : RewardMap)
    (h : (rewardKeys m).Nodup) : (rewardKeys (addReward k x m)).Nodup := by
  induction m with
  | nil => simp [addReward, rewardKeys]
  | cons p rest ih =>
    obtain ⟨k0, v⟩ := p
    have hcons : k0 ∉ rewardKeys rest ∧ (rewardKeys rest).Nodup := by
      simpa [rewardKeys] using h
    by_cases hk : k0 = k
    · subst hk
      simpa [addReward, rewardKeys] using h
    · have hnot : k0 ∉ rewardKeys (addReward k x rest) := by
        rw [mem_rewardKeys_addReward]
        intro hmem
        rcases hmem with e | e
        · exact hk e
        · exact hcons.1 e
      have hrest := ih hcons.2
      simp only [addReward, hk, if_false]
      show (k0 :: rewardKeys (addReward k x rest)).Nodup
      exact List.nodup_cons.mpr ⟨hnot, hrest⟩

/-- Merging any source into a map with distinct keys keeps the keys distinct. -/
theorem nodup_rewardKeys_MergeReward (dst : RewardMap) (src : Option RewardMap)
    (h : (rewardKeys dst).Nodup) : (rewardKeys (MergeReward dst src)).Nodup := by
  cases src with
  | none => exact h
  | some m =>
    unfold MergeReward
    simp only
    induction m generalizing dst with
    | nil => exact h
    | cons p rest ih =>
      rw [List.foldl_cons]
      exact ih _ (nodup_rewardKeys_addReward p.1 p.2 dst h)

/-- Folding `addReward` over a list raises the value read at `a` by the total that the
list carries for `a`. -/
theorem rewardAt_foldl_addReward (a : Address) (m dst : RewardMap) :
    rewardAt a (m.foldl (fun acc p => addReward p.1 p.2 acc) dst)
      = rewardAt a dst + totalAt a m := by
  induction m generalizing dst with
  | nil => simp [totalAt]
  | cons p rest ih =>
    obtain ⟨k, x⟩ := p
    rw [List.foldl_cons, ih, rewardAt_addReward]
    simp only [totalAt]
    ring

/-- An address that is not a key carries the total 0. -/
theorem totalAt_eq_zero_of_not_mem (a : Address) (m : RewardMap)
    (h : a ∉ rewardKeys m) : totalAt a m = 0 := by
  induction m with
  | nil => rfl
  | cons p rest ih =>
    obtain ⟨k, x⟩ := p
    have hcons : ¬ a = k ∧ a ∉ rewardKeys rest := by
      simpa [rewardKeys] using h
    have hka : ¬ k = a := fun e => hcons.1 e.symm
    simp [totalAt, hka, ih hcons.2]

/-- With distinct keys the total carried for an address is the value read at it. -/
theorem totalAt_eq_rewardAt (a : Address) (m : RewardMap) (h : (rewardKeys m).Nodup) :
    totalAt a m = rewardAt a m := by
  induction m with
  | nil => rfl
  | cons p rest ih =>
    obtain ⟨k, x⟩ := p
    have hcons : k ∉ rewardKeys rest ∧ (rewardKeys rest).Nodup := by
      simpa [rewardKeys] using h
    by_cases hka : k = a
    · subst hka
      simp [totalAt, rewardAt, totalAt_eq_zero_of_not_mem k rest hcons.1]
    · simp [totalAt, rewardAt, hka, ih hcons.2]

/-- Merging a map with distinct keys adds, address by address, its value to the value of
the target. -/
theorem rewardAt_MergeReward (a : Address) (dst m : RewardMap) (h : (rewardKeys m).Nodup) :
    rewardAt a (MergeReward dst (some m)) = rewardAt a dst + rewardAt a m := by
  unfold MergeReward
  simp only
  rw [rewardAt_foldl_addReward, totalAt_eq_rewardAt a m h]

/-- With a configuration present `getValidatorRewards` returns a map, and its keys are
distinct. -/
theorem getValidatorRewards_ok (E : Env) (br : BlockReward) (cfg : RewardCfg) (P : Int)
    (Leader : Address) (num : Nat) (hcfg : br.rewardCfg = some cfg) :
    ∃ v, getValidatorRewards E br P Leader num = .ok v ∧ (rewardKeys v).Nodup := by
  unfold getValidatorRewards calcValidatorRateMount
  simp only [hcfg]
  refine ⟨_, rfl, ?_⟩
  apply nodup_rewardKeys_MergeReward
  apply nodup_rewardKeys_MergeReward
  apply nodup_rewardKeys_MergeReward
  exact List.nodup_nil

/-- With a configuration present `getMinerRewards` returns a map, and its keys are
distinct. -/
theorem getMinerRewards_ok (E : Env) (br : BlockReward) (cfg : RewardCfg) (P : Int)
    (num rewardType : Nat) (parentHash : Hash) (hcfg : br.rewardCfg = some cfg) :
    ∃ m, getMinerRewards E br P num rewardType parentHash = .ok m ∧ (rewardKeys m).Nodup := by
  unfold getMinerRewards calcMinerRateMount
  simp only [hcfg]
  refine ⟨_, rfl, ?_⟩
  apply nodup_rewardKeys_MergeReward
  apply nodup_rewardKeys_MergeReward
  apply nodup_rewardKeys_MergeReward
  exact List.nodup_nil

/-- C15: for every engine with a non-nil config, every amount `> 0` and every
non-broadcast height, `CalcNodesRewards` returns the merge of
`getValidatorRewards (floor(amount * ValidatorsRate / full)) leader num` and
`getMinerRewards (floor(amount * MinersRate / full)) num TxsReward parentHash`: for every
address the result value is the sum of its values in the two maps (missing = 0), in
particular at the foundation account. -/
theorem CalcNodesRewards_merges_pools (E : Env) (br : BlockReward) (cfg : RewardCfg)
    (amount : Int) (Leader : Address) (num : Nat) (parentHash : Hash)
    (hcfg : br.rewardCfg = some cfg) (hpos : 0 < amount)
    (hnb : br.bcInterval.IsBroadcastNumber num = false) :
    ∃ v m res,
      getValidatorRewards E br (rateSplit E amount cfg.ValidatorsRate) Leader num = .ok v ∧
      getMinerRewards E br (rateSplit E amount cfg.MinersRate) num E.TxsReward parentHash
        = .ok m ∧
      CalcNodesRewards E br amount Leader num parentHash = .ok (some res) ∧
      res = MergeReward (MergeReward [] (some v)) (some m) ∧
      (∀ a, rewardAt a res = rewardAt a v + rewardAt a m) ∧
      rewardAt br.foundationAccount res
        = rewardAt br.foundationAccount v + rewardAt br.foundationAccount m := by
  obtain ⟨v, hv, hvn⟩ := getValidatorRewards_ok E br cfg
    (rateSplit E amount cfg.ValidatorsRate) Leader num hcfg
  obtain ⟨m, hm, hmn⟩ := getMinerRewards_ok E br cfg
    (rateSplit E amount cfg.MinersRate) num E.TxsReward parentHash hcfg
  have hsum : ∀ a, rewardAt a (MergeReward (MergeReward [] (some v)) (some m))
      = rewardAt a v + rewardAt a m := by
    intro a
    rw [rewardAt_MergeReward a _ m hmn, rewardAt_MergeReward a [] v hvn]
    simp [rewardAt]
  refine ⟨v, m, _, hv, hm, ?_, rfl, hsum, hsum _⟩
  have hna : ¬ amount ≤ 0 := not_le.mpr hpos
  unfold CalcNodesRewards
  simp only [hcfg, hnb, CalcRateReward_eq_rateSplit, hv, hm, hna, if_false]
  simp

/-- A fee total of 1000 with the rates 30/70 at the non-broadcast height 3: the
validators pool 700 and the miners pool 300 are distributed, and the foundation account 7
receives 70 + 30 = 100. -/
theorem CalcNodesRewards_merges_pools_witness :
    CalcNodesRewards demoEnv (demoEngine 0 1 50) 1000 5 3 0
      = .ok (some [(5, 280), (512, 350), (7, 100), (600, 120), (503, 150)]) ∧
    getValidatorRewards demoEnv (demoEngine 0 1 50) 700 5 3
      = .ok [(5, 280), (512, 350), (7, 70)] ∧
    getMinerRewards demoEnv (demoEngine 0 1 50) 300 3 demoEnv.TxsReward 0
      = .ok [(600, 120), (503, 150), (7, 30)] ∧
    ∃ v m res,
      getValidatorRewards demoEnv (demoEngine 0 1 50)
        (rateSplit demoEnv 1000 (demoCfg 1 50).ValidatorsRate) 5 3 = .ok v ∧
      getMinerRewards demoEnv (demoEngine 0 1 50)
        (rateSplit demoEnv 1000 (demoCfg 1 50).MinersRate) 3 demoEnv.TxsReward 0 = .ok m ∧
      CalcNodesRewards demoEnv (demoEngine 0 1 50) 1000 5 3 0 = .ok (some res) ∧
      res = MergeReward (MergeReward [] (some v)) (some m) ∧
      (∀ a, rewardAt a res = rewardAt a v + rewardAt a m) ∧
      rewardAt (demoEngine 0 1 50).foundationAccount res
        = rewardAt (demoEngine 0 1 50).foundationAccount v
          + rewardAt (demoEngine 0 1 50).foundationAccount m :=
  ⟨rfl, rfl, rfl, CalcNodesRewards_merges_pools demoEnv (demoEngine 0 1 50) (demoCfg 1 50)
    1000 5 3 0 rfl (by decide) rfl⟩

/-! ## Engines accepted by the constructor -/

/-- An engine is returned by `New` only when each of the three `uint64` group sums
equals the full rate unit. -/
theorem New_accepts_rate_sums (E : Env) (chain : ChainReader) (cfg : RewardCfg)
    (st : Option StateDB) (br : BlockReward)
    (hnew : New E chain (some cfg) st = .ok (some br)) :
    uint64Add3 cfg.RewardMount.RewardRate.MinerOutRate
        cfg.RewardMount.RewardRate.ElectedMinerRate
        cfg.RewardMount.RewardRate.FoundationMinerRate = E.RewardFullRate ∧
    uint64Add3 cfg.RewardMount.RewardRate.LeaderRate
        cfg.RewardMount.RewardRate.ElectedValidatorsRate
        cfg.RewardMount.RewardRate.FoundationValidatorRate = E.RewardFullRate ∧
    uint64Add2 cfg.RewardMount.RewardRate.OriginElectOfflineRate
        cfg.RewardMount.RewardRate.BackupRewardRate = E.RewardFullRate := by
  unfold New at hnew
  simp only at hnew
  split at hnew
  · cases hnew
  · split at hnew
    · cases hnew
    · split at hnew
      · cases hnew
      · rename_i h1 h2 h3
        exact ⟨(not_not.mp h1).symm, (not_not.mp h2).symm, (not_not.mp h3).symm⟩

/-- A `uint64` sum of three rates whose exact sum stays below `2 ^ 64` is the exact sum. -/
theorem uint64Add3_of_lt (a b c : Nat) (h : a + b + c < uint64Mod) :
    uint64Add3 a b c = a + b + c := by
  unfold uint64Add3
  exact Nat.mod_eq_of_lt h

/-- Refutation of C16 as stated: `New` accepts the rate table `wrappedRates`, whose miner
group sums to the full rate unit 100 only modulo `2 ^ 64`, and on the pool 100 the three
shares of `calcMinerRateMount` are `2 ^ 64 - 1`, 1 and 100, which sum to more than the
pool. -/
theorem New_accepted_group_overpays :
    ∃ br, New demoEnv { id := 0 } (some (cfgWithRates wrappedRates)) (some (demoState 0))
        = .ok (some br) ∧
      calcMinerRateMount demoEnv br 100 = .ok (18446744073709551615, 1, 100) ∧
      ¬ ((18446744073709551615 : Int) + 1 + 100 ≤ 100) :=
  ⟨_, rfl, rfl, by decide⟩

/-- C16 (amended): for every pool `P` (in particular every `P >= 0`) and every engine
that `New` accepts for a rate table whose validator group and miner group have exact sums
below `2 ^ 64` (so that the `uint64` sums checked by `New` are the exact sums), the three
shares returned by `calcValidatorRateMount P`, and likewise by `calcMinerRateMount P`,
are each `floor(P * rate / full)` with no residue added, and they sum to at most `P` and
to at least `P - 2`. -/
theorem rounding_loss_bounded (E : Env) (chain : ChainReader) (cfg : RewardCfg)
    (st : Option StateDB) (br : BlockReward) (P : Int)
    (hnew : New E chain (some cfg) st = .ok (some br))
    (hv : cfg.RewardMount.RewardRate.LeaderRate
      + cfg.RewardMount.RewardRate.ElectedValidatorsRate
      + cfg.RewardMount.RewardRate.FoundationValidatorRate < uint64Mod)
    (hm : cfg.RewardMount.RewardRate.MinerOutRate + cfg.RewardMount.RewardRate.ElectedMinerRate
      + cfg.RewardMount.RewardRate.FoundationMinerRate < uint64Mod) :
    (∃ l e f, calcValidatorRateMount E br P = .ok (l, e, f) ∧
      l = rateSplit E P cfg.RewardMount.RewardRate.LeaderRate ∧
      e = rateSplit E P cfg.RewardMount.RewardRate.ElectedValidatorsRate ∧
      f = rateSplit E P cfg.RewardMount.RewardRate.FoundationValidatorRate ∧
      l + e + f ≤ P ∧ P - 2 ≤ l + e + f) ∧
    (∃ o e f, calcMinerRateMount E br P = .ok (o, e, f) ∧
      o = rateSplit E P cfg.RewardMount.RewardRate.MinerOutRate ∧
      e = rateSplit E P cfg.RewardMount.RewardRate.ElectedMinerRate ∧
      f = rateSplit E P cfg.RewardMount.RewardRate.FoundationMinerRate ∧
      o + e + f ≤ P ∧ P - 2 ≤ o + e + f) := by
  have hcfg := New_keeps_rewardCfg E chain cfg st br hnew
  obtain ⟨sm, sv, _⟩ := New_accepts_rate_sums E chain cfg st br hnew
  rw [uint64Add3_of_lt _ _ _ hm] at sm
  rw [uint64Add3_of_lt _ _ _ hv] at sv
  exact rateMounts_bounds_of_exact_sums E br cfg P hcfg sv sm

/-- The engine that `New` builds for the rates 40/50/10 of 100 splits a pool of 7 into 2,
3 and 0: the shares sum to 5, which is `7 - 2`, and the two lost units go to nobody. -/
theorem rounding_loss_bounded_witness :
    New demoEnv { id := 0 } (some (demoCfg 1 50)) (some (demoState 0))
      = .ok (some (demoEngine 0 1 50)) ∧
    calcValidatorRateMount demoEnv (demoEngine 0 1 50) 7 = .ok (2, 3, 0) ∧
    (∃ l e f, calcValidatorRateMount demoEnv (demoEngine 0 1 50) 7 = .ok (l, e, f) ∧
      l = rateSplit demoEnv 7 40 ∧ e = rateSplit demoEnv 7 50 ∧ f = rateSplit demoEnv 7 10 ∧
      l + e + f ≤ 7 ∧ 7 - 2 ≤ l + e + f) :=
  ⟨rfl, rfl, (rounding_loss_bounded demoEnv { id := 0 } (demoCfg 1 50) (some (demoState 0))
    (demoEngine 0 1 50) 7 rfl (by decide) (by decide)).1⟩

/-- Refutation of C20 as stated: `New` accepts the configuration `excessFeeCfg`, whose
MinersRate 60 and ValidatorsRate 70 add up to 130 of 100; on a fee total of 1000
`CalcNodesRewards` at the non-broadcast height 3 distributes a miners pool of 600 and a
validators pool of 700, 1300 in all. -/
theorem New_accepts_unchecked_fee_rates :
    ∃ br, New demoEnv { id := 0 } (some excessFeeCfg) (some (demoState 0)) = .ok (some br) ∧
      CalcRateReward demoEnv 1000 excessFeeCfg.MinersRate = 600 ∧
      CalcRateReward demoEnv 1000 excessFeeCfg.ValidatorsRate = 700 ∧
      ¬ (CalcRateReward demoEnv 1000 excessFeeCfg.MinersRate
          + CalcRateReward demoEnv 1000 excessFeeCfg.ValidatorsRate ≤ 1000) ∧
      getMinerRewards demoEnv br 600 3 demoEnv.TxsReward 0
        = .ok [(600, 240), (503, 300), (7, 60)] ∧
      getValidatorRewards demoEnv br 700 5 3 = .ok [(5, 280), (512, 350), (7, 70)] ∧
      CalcNodesRewards demoEnv br 1000 5 3 0
        = .ok (some [(5, 280), (512, 350), (7, 130), (600, 240), (503, 300)]) :=
  ⟨_, rfl, by decide, by decide, by decide, rfl, rfl, rfl⟩

/-- C20 (amended): for every engine that `New` accepts for a configuration whose
MinersRate and ValidatorsRate add up to at most the full rate unit, every fee amount
`> 0`, every leader, height and parent hash, `CalcNodesRewards` returns `nil` on a
broadcast height and otherwise the merge of `getValidatorRewards` on the validators pool
`floor(amount * ValidatorsRate / full)` and `getMinerRewards` on the miners pool
`floor(amount * MinersRate / full)`, and the two pools add up to at most `amount`. -/
theorem fee_pools_within_total (E : Env) (chain : ChainReader) (cfg : RewardCfg)
    (st : Option StateDB) (br : BlockReward) (amount : Int) (Leader : Address) (num : Nat)
    (parentHash : Hash)
    (hnew : New E chain (some cfg) st = .ok (some br))
    (hrates : cfg.MinersRate + cfg.ValidatorsRate ≤ E.RewardFullRate)
    (hpos : 0 < amount) :
    ∃ minersPool validatorsPool m v,
      minersPool = rateSplit E amount cfg.MinersRate ∧
      validatorsPool = rateSplit E amount cfg.ValidatorsRate ∧
      getMinerRewards E br minersPool num E.TxsReward parentHash = .ok m ∧
      getValidatorRewards E br validatorsPool Leader num = .ok v ∧
      CalcNodesRewards E br amount Leader num parentHash =
        (if br.bcInterval.IsBroadcastNumber num = true then .ok none
         else .ok (some (MergeReward (MergeReward [] (some v)) (some m)))) ∧
      minersPool + validatorsPool ≤ amount := by
  have hcfg := New_keeps_rewardCfg E chain cfg st br hnew
  obtain ⟨v, hv, _⟩ := getValidatorRewards_ok E br cfg
    (rateSplit E amount cfg.ValidatorsRate) Leader num hcfg
  obtain ⟨m, hm, _⟩ := getMinerRewards_ok E br cfg
    (rateSplit E amount cfg.MinersRate) num E.TxsReward parentHash hcfg
  have hle := CalcRateReward_two_le E amount _ _ hrates (le_of_lt hpos)
  rw [CalcRateReward_eq_rateSplit, CalcRateReward_eq_rateSplit] at hle
  refine ⟨_, _, m, v, rfl, rfl, hm, hv, ?_, hle⟩
  have hna : ¬ amount ≤ 0 := not_le.mpr hpos
  unfold CalcNodesRewards
  by_cases hbc : br.bcInterval.IsBroadcastNumber num = true
  · simp only [hcfg, hbc, if_true]
  · simp only [hcfg, hbc, CalcRateReward_eq_rateSplit, hv, hm, hna, if_false]

/-- The engine that `New` builds for the fee rates 30 and 70 of 100 distributes, on a fee
total of 1000 at the non-broadcast height 3, a miners pool of 300 and a validators pool
of 700. -/
theorem fee_pools_within_total_witness :
    New demoEnv { id := 0 } (some (demoCfg 1 50)) (some (demoState 0))
      = .ok (some (demoEngine 0 1 50)) ∧
    CalcNodesRewards demoEnv (demoEngine 0 1 50) 1000 5 3 0
      = .ok (some [(5, 280), (512, 350), (7, 100), (600, 120), (503, 150)]) ∧
    ∃ minersPool validatorsPool m v,
      minersPool = rateSplit demoEnv 1000 (demoCfg 1 50).MinersRate ∧
      validatorsPool = rateSplit demoEnv 1000 (demoCfg 1 50).ValidatorsRate ∧
      getMinerRewards demoEnv (demoEngine 0 1 50) minersPool 3 demoEnv.TxsReward 0 = .ok m ∧
      getValidatorRewards demoEnv (demoEngine 0 1 50) validatorsPool 5 3 = .ok v ∧
      CalcNodesRewards demoEnv (demoEngine 0 1 50) 1000 5 3 0 =
        (if (demoEngine 0 1 50).bcInterval.IsBroadcastNumber 3 = true then .ok none
         else .ok (some (MergeReward (MergeReward [] (some v)) (some m)))) ∧
      minersPool + validatorsPool ≤ 1000 :=
  ⟨rfl, rfl, fee_pools_within_total demoEnv { id := 0 } (demoCfg 1 50) (some (demoState 0))
    (demoEngine 0 1 50) 1000 5 3 0 rfl (by decide) (by decide)⟩

end GoMatrix
